import Mathlib

/-!
# SFA: course feedback application

A shallow embedding of the feedback service (`backend/routes/feedback.js`) and of the
client-side logic of the dashboard, the feedback list and the feedback form
(`frontend/src/components/*.js`), together with the properties of the specification
that concern them.

The embedding is layered:

* the ECMAScript value layer the code relies on (numbers, truthiness, relational
  comparison, string-to-number conversion, `trim`, `includes`, `parseInt`, `toFixed`);
* the service handlers, written against a connection pool that is a parameter;
* a table model of the store;
* the dashboard aggregation, the list filter and sort, and the form validation.
-/

namespace SFA

/-! ## ECMAScript numbers -/

/-- An ECMAScript Number. A finite value is the rational it denotes (every binary64
value is a rational); the two zeros are identified, which none of the embedded code
distinguishes. -/
inductive JsNum
  | nan
  | inf (neg : Bool)
  | fin (q : ℚ)
deriving DecidableEq

/-- Nearest integer, ties to the even neighbour. -/
def roundHalfEven (q : ℚ) : ℤ :=
  let f := ⌊q⌋
  if q - f < 1 / 2 then f
  else if 1 / 2 < q - f then f + 1
  else if f % 2 = 0 then f else f + 1

/-- The exponent `e` with `2 ^ e ≤ q < 2 ^ (e + 1)`, for positive `q`. -/
def floorLog2 (q : ℚ) : ℤ :=
  let e0 : ℤ := (Nat.log2 q.num.natAbs : ℤ) - (Nat.log2 q.den : ℤ)
  if (2 : ℚ) ^ e0 ≤ q then e0 else e0 - 1

/-- The Number value for a real: round to nearest binary64, ties to even; magnitudes
that round to `2 ^ 1024` or more become infinite. The spacing of representable values
around `q` is `2 ^ (e - 52)`, with `e` the binary exponent of `q`, never below `-1022`
(subnormal range). -/
def roundDouble (q : ℚ) : JsNum :=
  if q = 0 then .fin 0
  else
    let a := |q|
    let e := max (floorLog2 a) (-1022)
    let u : ℚ := 2 ^ (e - 52)
    let r : ℚ := roundHalfEven (a / u) * u
    if (2 : ℚ) ^ (1024 : ℕ) ≤ r then .inf (decide (q < 0))
    else .fin (if q < 0 then -r else r)

namespace JsNum

/-- Number::lessThan, with `undefined` (a NaN operand) read as `false`, as the
relational operators do. -/
def lt : JsNum → JsNum → Bool
  | fin a, fin b => decide (a < b)
  | fin _, inf neg => !neg
  | inf neg, fin _ => neg
  | inf a, inf b => a && !b
  | _, _ => false

/-- Truthiness of a Number: false for zero and NaN. -/
def truthy : JsNum → Bool
  | nan => false
  | inf _ => true
  | fin q => decide (q ≠ 0)

/-- An integer as a Number (exact for the magnitudes an integer column holds). -/
def ofInt (i : ℤ) : JsNum := fin i

/-- Number::add. -/
def add : JsNum → JsNum → JsNum
  | fin a, fin b => roundDouble (a + b)
  | fin _, inf n => inf n
  | inf n, fin _ => inf n
  | inf a, inf b => if a = b then inf a else nan
  | _, _ => nan

/-- Number::divide, for a non-zero finite divisor (the only case the code reaches:
the divisor is a positive array length). -/
def divNat (x : JsNum) (n : ℕ) : JsNum :=
  match x with
  | fin a => roundDouble (a / n)
  | inf s => inf s
  | nan => nan

end JsNum

/-! ## Strings -/

/-- WhiteSpace and LineTerminator code points: what `trim` strips and what may surround
a numeric string. -/
def isStrWhiteSpaceChar (c : Char) : Bool :=
  let n := c.toNat
  n = 0x9 || n = 0xA || n = 0xB || n = 0xC || n = 0xD || n = 0x20 || n = 0xA0 ||
  n = 0x1680 || (0x2000 ≤ n && n ≤ 0x200A) || n = 0x2028 || n = 0x2029 ||
  n = 0x202F || n = 0x205F || n = 0x3000 || n = 0xFEFF

/-- Strip leading and trailing white space from a list of characters. -/
def trimChars (cs : List Char) : List Char :=
  ((cs.dropWhile isStrWhiteSpaceChar).reverse.dropWhile isStrWhiteSpaceChar).reverse

/-- String.prototype.trim. -/
def trim (s : String) : String := ⟨trimChars s.data⟩

/-- The `length` of a string: its number of UTF-16 code units. -/
def jsLength (s : String) : ℕ :=
  (s.data.map fun c => if c.toNat < 0x10000 then 1 else 2).sum

/-- Whether `needle` occurs in `hay` as a contiguous run. -/
def includesChars (hay needle : List Char) : Bool :=
  hay.tails.any fun t => needle.isPrefixOf t

/-- String.prototype.includes. -/
def includes (s t : String) : Bool := includesChars s.data t.data

/-- Value of a digit character, letters counting from ten. -/
def digitValue (c : Char) : Option ℕ :=
  let n := c.toNat
  if 48 ≤ n ∧ n ≤ 57 then some (n - 48)
  else if 97 ≤ n ∧ n ≤ 122 then some (n - 87)
  else if 65 ≤ n ∧ n ≤ 90 then some (n - 55)
  else none

/-- Value of a non-empty run of digits in the given radix; `none` when the run is empty
or holds anything else. -/
def digitsValue (radix : ℕ) : List Char → Option ℕ
  | [] => none
  | cs => cs.foldl (fun acc c =>
      match acc, digitValue c with
      | some a, some d => if d < radix then some (a * radix + d) else none
      | _, _ => none) (some 0)

/-- SignedInteger: digits with an optional sign. -/
def signedIntegerValue : List Char → Option ℤ
  | '+' :: ds => (digitsValue 10 ds).map fun v => (v : ℤ)
  | '-' :: ds => (digitsValue 10 ds).map fun v => -(v : ℤ)
  | ds => (digitsValue 10 ds).map fun v => (v : ℤ)

/-- Mathematical value of a StrUnsignedDecimalLiteral other than `Infinity`:
`digits`, `digits.`, `digits.digits`, `.digits`, each with an optional exponent part. -/
def unsignedDecimalValue (cs : List Char) : Option ℚ :=
  let (mant, rest) := cs.span fun c => c != 'e' && c != 'E'
  let expo : Option ℤ :=
    match rest with
    | [] => some 0
    | _ :: ds => signedIntegerValue ds
  let (ip, fp) := mant.span fun c => c != '.'
  let m : Option ℚ :=
    match ip, fp with
    | _, [] => (digitsValue 10 ip).map fun v => (v : ℚ)
    | [], _ :: fs => (digitsValue 10 fs).map fun v => (v : ℚ) / 10 ^ fs.length
    | _, [_] => (digitsValue 10 ip).map fun v => (v : ℚ)
    | _, _ :: fs =>
      match digitsValue 10 ip, digitsValue 10 fs with
      | some a, some b => some ((a : ℚ) + (b : ℚ) / 10 ^ fs.length)
      | _, _ => none
  match m, expo with
  | some m, some e => some (m * (10 : ℚ) ^ e)
  | _, _ => none

/-- StrUnsignedDecimalLiteral. -/
def strUnsignedDecimalLiteral (cs : List Char) : Option JsNum :=
  if cs = ['I', 'n', 'f', 'i', 'n', 'i', 't', 'y'] then some (.inf false)
  else (unsignedDecimalValue cs).map roundDouble

/-- Negation of a Number. -/
def JsNum.neg : JsNum → JsNum
  | .nan => .nan
  | .inf s => .inf (!s)
  | .fin q => .fin (-q)

/-- StrDecimalLiteral: an unsigned literal with an optional sign. -/
def strDecimalLiteral : List Char → Option JsNum
  | '+' :: cs => strUnsignedDecimalLiteral cs
  | '-' :: cs => (strUnsignedDecimalLiteral cs).map JsNum.neg
  | cs => strUnsignedDecimalLiteral cs

/-- StrNumericLiteral: a decimal literal, or an unsigned binary, octal or hexadecimal
integer literal. -/
def strNumericLiteral (cs : List Char) : Option JsNum :=
  match cs with
  | '0' :: p :: ds =>
    if p = 'x' ∨ p = 'X' then (digitsValue 16 ds).map fun v => roundDouble v
    else if p = 'o' ∨ p = 'O' then (digitsValue 8 ds).map fun v => roundDouble v
    else if p = 'b' ∨ p = 'B' then (digitsValue 2 ds).map fun v => roundDouble v
    else strDecimalLiteral cs
  | _ => strDecimalLiteral cs

/-- StringToNumber: white space only is zero; a numeric literal surrounded by optional
white space is its value; anything else is NaN. -/
def stringToNumber (s : String) : JsNum :=
  match trimChars s.data with
  | [] => .fin 0
  | cs => (strNumericLiteral cs).getD .nan

/-! ## ECMAScript values of a JSON request body -/

/-- A value found in a parsed JSON body, or `undefined` for an absent field. An object
or array is represented by what the code can observe of it: the outcome of converting it
to a primitive (the string produced by `toString`, or `none` when the conversion throws
a TypeError because the object carries its own non-callable `valueOf` and `toString`
members). -/
inductive JsVal
  | undefined
  | null
  | bool (b : Bool)
  | num (x : JsNum)
  | str (s : String)
  | obj (prim : Option String)
deriving DecidableEq

namespace JsVal

/-- ToBoolean. -/
def truthy : JsVal → Bool
  | undefined => false
  | null => false
  | bool b => b
  | num x => x.truthy
  | str s => decide (s ≠ "")
  | obj _ => true

/-- The message of the TypeError thrown when an object has no primitive value. -/
def typeErrorMessage : String := "Cannot convert object to primitive value"

/-- ToNumber after ToPrimitive with hint number; an error is a thrown TypeError. -/
def toNumber : JsVal → Except String JsNum
  | undefined => .ok .nan
  | null => .ok (.fin 0)
  | bool b => .ok (.fin (if b then 1 else 0))
  | num x => .ok x
  | str s => .ok (stringToNumber s)
  | obj (some s) => .ok (stringToNumber s)
  | obj none => .error typeErrorMessage

/-- The expression `v < k` for a numeric literal `k`. -/
def ltNum (v : JsVal) (k : ℚ) : Except String Bool :=
  match v.toNumber with
  | .ok x => .ok (x.lt (.fin k))
  | .error m => .error m

/-- The expression `v > k` for a numeric literal `k`. -/
def gtNum (v : JsVal) (k : ℚ) : Except String Bool :=
  match v.toNumber with
  | .ok x => .ok ((JsNum.fin k).lt x)
  | .error m => .error m

end JsVal

/-! ## The feedback service -/

/-- A row of the `feedback` table, as the store returns it. -/
structure FeedbackRecord where
  id : ℕ
  student_name : String
  course_code : String
  comments : String
  rating : ℤ
  created_at : ℤ
deriving DecidableEq

/-- Outcome of `pool.query`: the rows of the result, or a thrown error with its
message. -/
inductive QueryResult
  | rows (rs : List FeedbackRecord)
  | error (message : String)
deriving DecidableEq

/-- The connection pool of `config/db`, which the handlers take as given: running a
statement with its parameters against a store state yields an outcome and the store
state afterwards. -/
structure Pool (σ : Type) where
  query : String → List JsVal → σ → QueryResult × σ

/-- Statement of the list handler. -/
def selectSql : String := "SELECT * FROM feedback ORDER BY created_at DESC"

/-- Statement of the create handler. -/
def insertSql : String :=
  "INSERT INTO feedback (student_name, course_code, comments, rating) VALUES ($1, $2, $3, $4) RETURNING *"

/-- Statement of the delete handler. -/
def deleteSql : String := "DELETE FROM feedback WHERE id = $1 RETURNING *"

/-- A JSON response body of the service. -/
inductive ResBody
  | rows (rs : List FeedbackRecord)
  | error (error : String) (message : Option String)
  | done (message : String) (feedback : Option FeedbackRecord)
deriving DecidableEq

/-- An HTTP response: status and JSON body. -/
structure Response where
  status : ℕ
  body : ResBody
deriving DecidableEq

/-- The body of a create request: the four fields read from `req.body`. -/
structure CreateBody where
  studentName : JsVal
  courseCode : JsVal
  comments : JsVal
  rating : JsVal
deriving DecidableEq

/-- Handler `router.get('/')`. -/
def router_get {σ : Type} (pool : Pool σ) (s : σ) : Response × σ :=
  match pool.query selectSql [] s with
  | (.rows rs, s') => (⟨200, .rows rs⟩, s')
  | (.error m, s') => (⟨500, .error "Failed to retrieve feedback" (some m)⟩, s')

/-- Response to a request with a missing or falsy field. -/
def allFieldsRequired : Response := ⟨400, .error "All fields are required" none⟩

/-- Response to a rating found out of range. -/
def ratingOutOfRange : Response := ⟨400, .error "Rating must be between 1 and 5" none⟩

/-- Response of the `catch` block of the create handler. -/
def submitFailed (m : String) : Response := ⟨500, .error "Failed to submit feedback" (some m)⟩

/-- The part of the create handler after validation: run the INSERT and answer 201 with
the first returned row. -/
def insertFeedback {σ : Type} (pool : Pool σ) (b : CreateBody) (s : σ) : Response × σ :=
  match pool.query insertSql [b.studentName, b.courseCode, b.comments, b.rating] s with
  | (.rows rs, s') => (⟨201, .done "Feedback submitted successfully" rs.head?⟩, s')
  | (.error m, s') => (submitFailed m, s')

/-- Handler `router.post('/')`. -/
def router_post {σ : Type} (pool : Pool σ) (b : CreateBody) (s : σ) : Response × σ :=
  if !b.studentName.truthy || !b.courseCode.truthy || !b.comments.truthy || !b.rating.truthy then
    (allFieldsRequired, s)
  else
    match b.rating.ltNum 1 with
    | .error m => (submitFailed m, s)
    | .ok true => (ratingOutOfRange, s)
    | .ok false =>
      match b.rating.gtNum 5 with
      | .error m => (submitFailed m, s)
      | .ok true => (ratingOutOfRange, s)
      | .ok false => insertFeedback pool b s

/-- Handler `router.delete('/:id')`; `id` is the path parameter. -/
def router_delete {σ : Type} (pool : Pool σ) (id : String) (s : σ) : Response × σ :=
  match pool.query deleteSql [.str id] s with
  | (.rows [], s') => (⟨404, .error "Feedback not found" none⟩, s')
  | (.rows (r :: _), s') => (⟨200, .done "Feedback deleted successfully" (some r)⟩, s')
  | (.error m, s') => (⟨500, .error "Failed to delete feedback" (some m)⟩, s')

/-! ## The store -/

/-- Modelled from the spec: the `feedback` table behind `config/db` (neither the
connection module nor the schema is among the sources). The table holds the rows in
insertion order; identifiers are assigned from a counter, creation times from the
store clock. -/
structure Store where
  rows : List FeedbackRecord
  nextId : ℕ
  clock : ℤ
deriving DecidableEq

/-- Modelled from the spec: a text column takes a string parameter as it is. -/
def textColumn : JsVal → Option String
  | .str s => some s
  | _ => none

/-- Modelled from the spec: the integer `rating` column takes an integral number, or a
string of decimal digits. -/
def integerColumn : JsVal → Option ℤ
  | .num (.fin q) => if q.den = 1 then some q.num else none
  | .str s => (digitsValue 10 s.data).map fun v => (v : ℤ)
  | _ => none

/-- Modelled from the spec: the identifier a path parameter denotes. -/
def decodeId (id : String) : Option ℕ := digitsValue 10 id.data

/-- Insert `r` before the first row that it precedes in `created_at DESC` order. -/
def insertByCreatedAtDesc (r : FeedbackRecord) : List FeedbackRecord → List FeedbackRecord
  | [] => [r]
  | x :: xs => if x.created_at ≤ r.created_at then r :: x :: xs else x :: insertByCreatedAtDesc r xs

/-- Modelled from the spec: `ORDER BY created_at DESC`. -/
def orderByCreatedAtDesc (rs : List FeedbackRecord) : List FeedbackRecord :=
  rs.foldr insertByCreatedAtDesc []

/-- Modelled from the spec: the three statements of the service run against the table.
The INSERT fails when a parameter does not fit its column, and otherwise appends a row
with a fresh identifier; the DELETE removes the rows whose identifier the parameter
denotes and returns them; the SELECT returns all rows, newest first. -/
def Store.query (sql : String) (params : List JsVal) (s : Store) : QueryResult × Store :=
  if sql = selectSql then (.rows (orderByCreatedAtDesc s.rows), s)
  else if sql = insertSql then
    match params with
    | [n, c, m, r] =>
      match textColumn n, textColumn c, textColumn m, integerColumn r with
      | some n, some c, some m, some r =>
        let row : FeedbackRecord := ⟨s.nextId, n, c, m, r, s.clock⟩
        (.rows [row], { s with rows := s.rows ++ [row], nextId := s.nextId + 1 })
      | _, _, _, _ => (.error "invalid input value for column", s)
    | _ => (.error "bind message supplies the wrong number of parameters", s)
  else if sql = deleteSql then
    match params with
    | [.str id] =>
      (.rows (s.rows.filter fun r => decodeId id = some r.id),
        { s with rows := s.rows.filter fun r => ¬ decodeId id = some r.id })
    | _ => (.error "bind message supplies the wrong number of parameters", s)
  else (.error "syntax error", s)

/-- Modelled from the spec: the pool over the table model. -/
def tablePool : Pool Store := ⟨Store.query⟩

/-! ## Vocabulary of the properties -/

/-- The pool that answers every statement with no rows and records the statement and
its parameters. -/
def recordingPool : Pool (List (String × List JsVal)) :=
  ⟨fun sql ps log => (.rows [], log ++ [(sql, ps)])⟩

/-- A table with two rows, for the examples. -/
def sampleStore : Store :=
  ⟨[⟨1, "Ada", "CS101", "A fine course", 4, 10⟩, ⟨2, "Bob", "MATH201", "Hard but fair", 3, 20⟩],
    3, 30⟩

/-- A rating is within 1–5 when it converts to a finite number between 1 and 5. -/
def JsVal.within1to5 (v : JsVal) : Prop :=
  ∃ q : ℚ, v.toNumber = .ok (.fin q) ∧ 1 ≤ q ∧ q ≤ 5

/-- A rating is numerically out of range when it converts to a number below 1 or
above 5. -/
def JsVal.outOfRange (v : JsVal) : Prop :=
  ∃ x, v.toNumber = .ok x ∧ (x.lt (.fin 1) = true ∨ (JsNum.fin 5).lt x = true)

/-- The invariants of a feedback record: rating between 1 and 5, comments of at least
ten characters after trimming, student name and course code non-empty after
trimming. -/
def FeedbackRecord.invariants (r : FeedbackRecord) : Prop :=
  1 ≤ r.rating ∧ r.rating ≤ 5 ∧ 10 ≤ jsLength (trim r.comments) ∧
    trim r.student_name ≠ "" ∧ trim r.course_code ≠ ""

instance (r : FeedbackRecord) : Decidable r.invariants := by
  unfold FeedbackRecord.invariants
  infer_instance

/-! ## Dashboard -/

/-- The string `toFixed(1)` returns. `decimal neg n` is the decimal numeral of `n` with
a point before its last digit, preceded by a minus sign when `neg`; `plain x` is the
default string form of `x`, returned for NaN, the infinities and magnitudes from
`10 ^ 21`. -/
inductive FixedString
  | decimal (neg : Bool) (n : ℕ)
  | plain (x : JsNum)
deriving DecidableEq

/-- Number.prototype.toFixed with one fraction digit: the integer `n` nearest to ten
times the magnitude, the larger one on a tie. -/
def toFixed1 : JsNum → FixedString
  | .fin q =>
    if (10 : ℚ) ^ (21 : ℕ) ≤ |q| then .plain (.fin q)
    else .decimal (decide (q < 0)) ⌊|q| * 10 + 1 / 2⌋.toNat
  | x => .plain x

/-- The characters of a `decimal` string. -/
def FixedString.decimalText (neg : Bool) (n : ℕ) : String :=
  (if neg then "-" else "") ++ toString (n / 10) ++ "." ++ toString (n % 10)

/-- The `averageRating` field: the number literal `0`, or the string from `toFixed`. -/
inductive Average
  | number (x : JsNum)
  | text (s : FixedString)
deriving DecidableEq

/-- The `ratingDistribution` object: its own properties, keyed by rating. A property
holds a Number. -/
abbrev Distribution := List (ℤ × JsNum)

/-- Property read `d[k]`; `none` stands for `undefined`. -/
def Distribution.get : Distribution → ℤ → Option JsNum
  | [], _ => none
  | (k', v) :: d, k => if k' = k then some v else Distribution.get d k

/-- The statement `d[k]++`: the property becomes its old value plus one, an absent
property (`undefined`) becoming NaN. -/
def Distribution.increment : Distribution → ℤ → Distribution
  | [], k => [(k, .nan)]
  | (k', v) :: d, k =>
    if k' = k then (k', v.add (.fin 1)) :: d else (k', v) :: Distribution.increment d k

/-- The `stats` state of the dashboard. -/
structure Stats where
  total : ℕ
  averageRating : Average
  ratingDistribution : Distribution
  recentFeedback : List FeedbackRecord
deriving DecidableEq

/-- The statistics `fetchStats` computes from the fetched list. -/
def fetchStats (feedbacks : List FeedbackRecord) : Stats :=
  let total := feedbacks.length
  let ratings := feedbacks.map fun f => f.rating
  let averageRating :=
    if total > 0 then
      Average.text (toFixed1
        ((ratings.foldl (fun (a : JsNum) (b : ℤ) => a.add (.ofInt b)) (.fin 0)).divNat total))
    else Average.number (.fin 0)
  let distribution : Distribution :=
    ratings.foldl Distribution.increment
      [(1, .fin 0), (2, .fin 0), (3, .fin 0), (4, .fin 0), (5, .fin 0)]
  let recentFeedback := feedbacks.take 3
  { total := total, averageRating := averageRating, ratingDistribution := distribution,
    recentFeedback := recentFeedback }

/-- The arithmetic mean of the ratings of a list of records. -/
def meanRating (feedbacks : List FeedbackRecord) : ℚ :=
  ((feedbacks.map fun f => (f.rating : ℚ)).sum) / feedbacks.length

/-- A record with the given rating, for the examples. -/
def rated (id : ℕ) (rating : ℤ) : FeedbackRecord := ⟨id, "Ada", "CS101", "A fine course", rating, 0⟩

/-- Rounding to one decimal place with halves rounded up. -/
def roundTenthHalfUp (m : ℚ) : ℚ := (⌊m * 10 + 1 / 2⌋ : ℚ) / 10

/-- Rounding to one decimal place with halves rounded to the even digit. -/
def roundTenthHalfEven (m : ℚ) : ℚ := (roundHalfEven (m * 10) : ℚ) / 10

/-- Four records with the ratings 1, 1, 1, 2: their mean is 1.25. -/
def ratingsMeanFiveQuarters : List FeedbackRecord :=
  [rated 1 1, rated 2 1, rated 3 1, rated 4 2]

/-- Twenty records, eleven rated 1 and nine rated 2: their mean is 1.45. -/
def ratingsMeanTwentyNineTwentieths : List FeedbackRecord :=
  List.replicate 11 (rated 1 1) ++ List.replicate 9 (rated 2 2)

/-! ## Feedback list -/

/-- Strict equality of Numbers: NaN equals nothing. -/
def JsNum.strictEq : JsNum → JsNum → Bool
  | .fin a, .fin b => decide (a = b)
  | .inf a, .inf b => decide (a = b)
  | _, _ => false

/-- The global `parseInt` with no radix: skip leading white space, read an optional
sign, switch to radix 16 after a `0x` prefix, and take the longest run of digits; NaN
when that run is empty. -/
def parseInt (s : String) : JsNum :=
  let cs := s.data.dropWhile isStrWhiteSpaceChar
  let signed : Bool × List Char :=
    match cs with
    | '-' :: r => (true, r)
    | '+' :: r => (false, r)
    | r => (false, r)
  let based : ℕ × List Char :=
    match signed.2 with
    | '0' :: p :: r => if p = 'x' ∨ p = 'X' then (16, r) else (10, signed.2)
    | r => (10, r)
  let z := based.2.takeWhile fun c => (digitValue c).any fun d => d < based.1
  match digitsValue based.1 z with
  | none => .nan
  | some v => if signed.1 then (roundDouble v).neg else roundDouble v

/-- Array.prototype.sort with a comparator: a stable sort that puts `a` before `b`
when the comparator is negative, and keeps their order when it is zero. -/
def arraySort {α : Type} (cmp : α → α → ℤ) (l : List α) : List α :=
  l.insertionSort fun a b => cmp a b ≤ 0

/-- The search, rating and course filters of `applyFilters`. `toLowerCase` stands for
String.prototype.toLowerCase. -/
def filterFeedbacks (toLowerCase : String → String) (feedbacks : List FeedbackRecord)
    (searchTerm selectedRating selectedCourse : String) : List FeedbackRecord :=
  let filtered := feedbacks
  let filtered :=
    if trim searchTerm ≠ "" then
      filtered.filter fun feedback =>
        includes (toLowerCase feedback.student_name) (toLowerCase searchTerm) ||
        includes (toLowerCase feedback.course_code) (toLowerCase searchTerm) ||
        includes (toLowerCase feedback.comments) (toLowerCase searchTerm)
    else filtered
  let filtered :=
    if selectedRating ≠ "all" then
      filtered.filter fun feedback =>
        (JsNum.ofInt feedback.rating).strictEq (parseInt selectedRating)
    else filtered
  let filtered :=
    if selectedCourse ≠ "all" then
      filtered.filter fun feedback => feedback.course_code = selectedCourse
    else filtered
  filtered

/-- The function `applyFilters`: the view it stores in `filteredFeedbacks`. The times
`created_at` are instants in milliseconds, as `new Date` reads them. -/
def applyFilters (toLowerCase : String → String) (feedbacks : List FeedbackRecord)
    (searchTerm selectedRating selectedCourse sortBy : String) : List FeedbackRecord :=
  let filtered := filterFeedbacks toLowerCase feedbacks searchTerm selectedRating selectedCourse
  if sortBy = "newest" then arraySort (fun a b => b.created_at - a.created_at) filtered
  else if sortBy = "oldest" then arraySort (fun a b => a.created_at - b.created_at) filtered
  else if sortBy = "highest" then arraySort (fun a b => b.rating - a.rating) filtered
  else if sortBy = "lowest" then arraySort (fun a b => a.rating - b.rating) filtered
  else filtered

/-- Lower-casing of the letters A to Z, with which `toLowerCase` agrees on strings of
ASCII characters. -/
def asciiLowerCase (s : String) : String := ⟨s.data.map Char.toLower⟩

/-- Whether the lower-cased search term occurs in the lower-cased student name, course
code or comments of a record. -/
def searchMatches (toLowerCase : String → String) (searchTerm : String)
    (f : FeedbackRecord) : Bool :=
  includes (toLowerCase f.student_name) (toLowerCase searchTerm) ||
  includes (toLowerCase f.course_code) (toLowerCase searchTerm) ||
  includes (toLowerCase f.comments) (toLowerCase searchTerm)

/-- Whether a record passes the rating filter. -/
def ratingMatches (selectedRating : String) (f : FeedbackRecord) : Bool :=
  selectedRating = "all" || (JsNum.ofInt f.rating).strictEq (parseInt selectedRating)

/-- Whether a record passes the course filter. -/
def courseMatches (selectedCourse : String) (f : FeedbackRecord) : Bool :=
  selectedCourse = "all" || f.course_code = selectedCourse

/-- Record A of the examples: course CS101, rating 5, the newest. -/
def recordA : FeedbackRecord := ⟨1, "Alice", "CS101", "Really good course", 5, 300⟩

/-- Record B of the examples: course CS101, rating 2. -/
def recordB : FeedbackRecord := ⟨2, "Bob", "CS101", "Too fast for me", 2, 200⟩

/-- Record C of the examples: course MATH201, rating 4. -/
def recordC : FeedbackRecord := ⟨3, "Carol", "MATH201", "Solid lectures", 4, 100⟩

/-- Whether a record passes the three filters of the list: the search (skipped when the
term is empty after trimming), the rating filter and the course filter. -/
def passesFilters (toLowerCase : String → String)
    (searchTerm selectedRating selectedCourse : String) (f : FeedbackRecord) : Bool :=
  (trim searchTerm = "" || searchMatches toLowerCase searchTerm f) &&
    ratingMatches selectedRating f && courseMatches selectedCourse f

/-- A record none of whose fields holds a space. -/
def recordNoSpace : FeedbackRecord := ⟨4, "Dan", "CS101", "Excellent!", 5, 50⟩

/-! ## Feedback form -/

/-- The `formData` state of the form: four strings. -/
structure FormData where
  studentName : String
  courseCode : String
  comments : String
  rating : String
deriving DecidableEq

/-- The `newErrors` object of `validate`: a message per field, `none` for an absent
key. -/
structure FormErrors where
  studentName : Option String
  courseCode : Option String
  comments : Option String
  rating : Option String
deriving DecidableEq

/-- The function `validate` of the form. -/
def validate (formData : FormData) : FormErrors :=
  { studentName :=
      if trim formData.studentName = "" then some "Student name is required" else none
    courseCode :=
      if trim formData.courseCode = "" then some "Course code is required" else none
    comments :=
      if trim formData.comments = "" then some "Comments are required"
      else if jsLength (trim formData.comments) < 10 then
        some "Comments must be at least 10 characters"
      else none
    rating :=
      if formData.rating = "" then some "Rating is required"
      else if (stringToNumber formData.rating).lt (.fin 1) ||
          (JsNum.fin 5).lt (stringToNumber formData.rating) then
        some "Rating must be between 1 and 5"
      else none }

/-- The keys of an errors object, as `Object.keys` lists them. -/
def FormErrors.keys (e : FormErrors) : List String :=
  (if e.studentName.isSome then ["studentName"] else []) ++
  (if e.courseCode.isSome then ["courseCode"] else []) ++
  (if e.comments.isSome then ["comments"] else []) ++
  (if e.rating.isSome then ["rating"] else [])

/-- What `handleSubmit` does with the form data: either it stores the validation errors
and returns, or it sends the POST request with the form data as body. -/
inductive SubmitAction
  | showErrors (errors : FormErrors)
  | post (path : String) (body : FormData)
deriving DecidableEq

/-- The function `handleSubmit` of the form, up to the request it issues. -/
def handleSubmit (formData : FormData) : SubmitAction :=
  let validationErrors := validate formData
  if validationErrors.keys.length > 0 then .showErrors validationErrors
  else .post "/api/feedback" formData

/-- The errors object with no key. -/
def noErrors : FormErrors := ⟨none, none, none, none⟩

/-- The values the `rating` field of the form state takes: the empty string of the
initial and the reset state, and the values of the five radio inputs, which are the only
inputs named `rating` that `handleChange` serves. -/
def formRatingValues : List String := ["", "1", "2", "3", "4", "5"]

/-- The body the service receives when the form posts `formData`: the four strings, as
JSON carries them. -/
def postedBody (formData : FormData) : CreateBody :=
  ⟨.str formData.studentName, .str formData.courseCode, .str formData.comments,
    .str formData.rating⟩

/-! ## Course options of the feedback list -/

/-- The UTF-16 code units of a character: one unit, or a surrogate pair. -/
def charUnits (c : Char) : List ℕ :=
  if c.toNat < 0x10000 then [c.toNat]
  else [0xD800 + (c.toNat - 0x10000) / 0x400, 0xDC00 + (c.toNat - 0x10000) % 0x400]

/-- The UTF-16 code units of a string. -/
def utf16Units (s : String) : List ℕ := s.data.flatMap charUnits

/-- Lexicographic order on sequences of code units, a proper prefix coming first. -/
def unitsLt : List ℕ → List ℕ → Bool
  | _, [] => false
  | [], _ :: _ => true
  | x :: xs, y :: ys => decide (x < y) || (decide (x = y) && unitsLt xs ys)

/-- The relation `a < b` on strings: comparison by code units. -/
def stringLt (a b : String) : Bool := unitsLt (utf16Units a) (utf16Units b)

/-- The comparison `sort()` applies to strings when called without a comparator. -/
def sortCompare (a b : String) : ℤ :=
  if stringLt a b then -1 else if stringLt b a then 1 else 0

/-- The values of `new Set(xs)`, in order of first occurrence. -/
def setValues (xs : List String) : List String :=
  xs.foldl (fun acc x => if x ∈ acc then acc else acc ++ [x]) []

/-- The state of the feedback list component. -/
structure ListState where
  feedbacks : List FeedbackRecord
  filteredFeedbacks : List FeedbackRecord
  searchTerm : String
  selectedRating : String
  selectedCourse : String
  sortBy : String
deriving DecidableEq

/-- The function `getUniqueCourses` of the feedback list. -/
def getUniqueCourses (st : ListState) : List String :=
  let courses := setValues (st.feedbacks.map fun f => f.course_code)
  arraySort sortCompare courses

/-! ## Highest rating of the dashboard -/

/-- The larger of two Numbers, as `Math.max` combines them: NaN if either is NaN. -/
def JsNum.max : JsNum → JsNum → JsNum
  | .nan, _ => .nan
  | _, .nan => .nan
  | x, y => if x.lt y then y else x

/-- The function `Math.max` applied to the values of a list: negative infinity for no
values. -/
def mathMax (xs : List JsNum) : JsNum := xs.foldl JsNum.max (.inf true)

/-- The own keys of the distribution object, as `Object.keys` lists them (their order
plays no part in what follows). -/
def Distribution.keys (d : Distribution) : List ℤ := d.map Prod.fst

/-- The function `getHighestRating` of the dashboard, on the `ratingDistribution` of the
state: the string "N/A", or the largest key whose value is greater than zero. -/
def getHighestRating (ratingDistribution : Distribution) : JsVal :=
  let ratingsWithFeedback :=
    (ratingDistribution.keys.filter fun k =>
      match ratingDistribution.get k with
      | some v => (JsNum.fin 0).lt v
      | none => false).map JsNum.ofInt
  if ratingsWithFeedback.length = 0 then .str "N/A"
  else .num (mathMax ratingsWithFeedback)

/-- Whether a Number is a count: a natural number. -/
def JsNum.isCount : JsNum → Bool
  | .fin q => decide (q.den = 1) && decide (0 ≤ q.num)
  | _ => false

/-- A distribution is well formed when its keys are distinct and each value is a
count. -/
def Distribution.WellFormed (d : Distribution) : Prop :=
  d.keys.Nodup ∧ ∀ e ∈ d, e.2.isCount = true

instance (d : Distribution) : Decidable d.WellFormed := by
  unfold Distribution.WellFormed
  infer_instance

/-! # Properties -/

/-! ## The create handler -/

theorem router_post_falsy {σ : Type} (pool : Pool σ) (b : CreateBody) (s : σ)
    (h : b.studentName.truthy = false ∨ b.courseCode.truthy = false ∨
      b.comments.truthy = false ∨ b.rating.truthy = false) :
    router_post pool b s = (allFieldsRequired, s) := by
  unfold router_post
  rw [if_pos]
  rcases h with h | h | h | h <;> simp [h]

theorem router_post_truthy {σ : Type} (pool : Pool σ) (b : CreateBody) (s : σ) (x : JsNum)
    (h1 : b.studentName.truthy = true) (h2 : b.courseCode.truthy = true)
    (h3 : b.comments.truthy = true) (h4 : b.rating.truthy = true)
    (hx : b.rating.toNumber = .ok x) :
    router_post pool b s =
      if x.lt (.fin 1) || (JsNum.fin 5).lt x then (ratingOutOfRange, s)
      else insertFeedback pool b s := by
  unfold router_post
  rw [if_neg (by simp [h1, h2, h3, h4])]
  simp only [JsVal.ltNum, JsVal.gtNum, hx]
  cases x.lt (.fin 1) <;> cases (JsNum.fin 5).lt x <;> simp

theorem router_post_throws {σ : Type} (pool : Pool σ) (b : CreateBody) (s : σ) (m : String)
    (h1 : b.studentName.truthy = true) (h2 : b.courseCode.truthy = true)
    (h3 : b.comments.truthy = true) (h4 : b.rating.truthy = true)
    (hx : b.rating.toNumber = .error m) :
    router_post pool b s = (submitFailed m, s) := by
  unfold router_post
  rw [if_neg (by simp [h1, h2, h3, h4])]
  simp only [JsVal.ltNum, hx]

/-- C1, as stated, fails: the rating "abc" is outside 1–5, yet the handler runs the
INSERT. Against the table the answer is the 500 of a failed query, not a 400; against
the recording pool the INSERT is on record and the answer is 201. -/
theorem C1_counterexample :
    ¬ (JsVal.str "abc").within1to5 ∧
    (router_post tablePool ⟨.str "Ada", .str "CS101", .str "A fine course", .str "abc"⟩
      ⟨[], 1, 0⟩).1 = submitFailed "invalid input value for column" ∧
    router_post recordingPool ⟨.str "Ada", .str "CS101", .str "A fine course", .str "abc"⟩ [] =
      (⟨201, .done "Feedback submitted successfully" none⟩,
        [(insertSql, [.str "Ada", .str "CS101", .str "A fine course", .str "abc"])]) := by
  refine ⟨?_, by decide, by decide⟩
  rintro ⟨q, hq, -⟩
  have h : (JsVal.str "abc").toNumber = .ok .nan :=
    congrArg Except.ok (by decide : stringToNumber "abc" = .nan)
  rw [h] at hq
  injection hq with hq
  cases hq

/-- C1 (amended): for every pool and store state, a create request whose rating is
falsy, or converts to a number below 1 or above 5, is answered with status 400 and
leaves the store state as it was (no statement is run). -/
theorem C1_create_rejects_out_of_range {σ : Type} (pool : Pool σ) (b : CreateBody) (s : σ)
    (h : b.rating.truthy = false ∨ b.rating.outOfRange) :
    (router_post pool b s).1.status = 400 ∧ (router_post pool b s).2 = s := by
  by_cases hf : b.studentName.truthy = false ∨ b.courseCode.truthy = false ∨
      b.comments.truthy = false ∨ b.rating.truthy = false
  · rw [router_post_falsy pool b s hf]; exact ⟨rfl, rfl⟩
  · simp only [not_or, Bool.not_eq_false] at hf
    obtain ⟨h1, h2, h3, h4⟩ := hf
    rcases h with h | ⟨x, hx, hr⟩
    · simp [h4] at h
    · rw [router_post_truthy pool b s x h1 h2 h3 h4 hx]
      rw [if_pos (by rcases hr with hr | hr <;> simp [hr])]
      exact ⟨rfl, rfl⟩

/-- Witness for C1: a rating of 7 against the recording pool. -/
theorem C1_create_rejects_out_of_range_witness :
    ((router_post recordingPool
        ⟨.str "Ada", .str "CS101", .str "A fine course", .num (.fin 7)⟩ []).1.status = 400 ∧
      (router_post recordingPool
        ⟨.str "Ada", .str "CS101", .str "A fine course", .num (.fin 7)⟩ []).2 = []) :=
  C1_create_rejects_out_of_range recordingPool
    ⟨.str "Ada", .str "CS101", .str "A fine course", .num (.fin 7)⟩ []
    (Or.inr ⟨.fin 7, rfl, Or.inr (by decide)⟩)

/-- C3, as stated, fails in two ways. A rating object without a primitive value is not
within 1–5, and no statement is run for it, yet the answer is the 500 of the `catch`
block rather than a 400. The rating "abc" is not within 1–5 either, and with a query
that does not fail the answer is 201. -/
theorem C3_counterexample :
    ¬ (JsVal.obj none).within1to5 ∧
    router_post tablePool ⟨.str "Ada", .str "CS101", .str "A fine course", .obj none⟩
      ⟨[], 1, 0⟩ = (submitFailed JsVal.typeErrorMessage, ⟨[], 1, 0⟩) ∧
    (submitFailed JsVal.typeErrorMessage).status = 500 ∧
    (router_post recordingPool ⟨.str "Bob", .str "CS101", .str "Quite all right", .str "abc"⟩
      []).1.status = 201 := by
  refine ⟨?_, by decide, by decide, by decide⟩
  rintro ⟨q, hq, -⟩
  cases hq

/-- C3 (amended): assume the rating converts to a number `x` without throwing and the
INSERT does not fail, returning the rows `rs`. Then the create handler answers 201 with
the success message and the first returned row exactly when all four fields are truthy
and `x` is neither below 1 nor above 5 (a NaN passes); when a field is falsy it answers
400 "All fields are required", and when all are truthy and `x` is below 1 or above 5 it
answers 400 "Rating must be between 1 and 5", in both cases leaving the store state
untouched. -/
theorem C3_create_response {σ : Type} (pool : Pool σ) (b : CreateBody) (s s' : σ)
    (x : JsNum) (rs : List FeedbackRecord)
    (hx : b.rating.toNumber = .ok x)
    (hq : pool.query insertSql [b.studentName, b.courseCode, b.comments, b.rating] s =
      (.rows rs, s')) :
    ((b.studentName.truthy = true ∧ b.courseCode.truthy = true ∧ b.comments.truthy = true ∧
        b.rating.truthy = true ∧ x.lt (.fin 1) = false ∧ (JsNum.fin 5).lt x = false) ↔
      (router_post pool b s).1.status = 201) ∧
    ((router_post pool b s).1.status = 201 →
      router_post pool b s = (⟨201, .done "Feedback submitted successfully" rs.head?⟩, s')) ∧
    ((b.studentName.truthy = false ∨ b.courseCode.truthy = false ∨
        b.comments.truthy = false ∨ b.rating.truthy = false) →
      router_post pool b s = (⟨400, .error "All fields are required" none⟩, s)) ∧
    ((b.studentName.truthy = true ∧ b.courseCode.truthy = true ∧ b.comments.truthy = true ∧
        b.rating.truthy = true ∧ (x.lt (.fin 1) = true ∨ (JsNum.fin 5).lt x = true)) →
      router_post pool b s = (⟨400, .error "Rating must be between 1 and 5" none⟩, s)) := by
  by_cases hf : b.studentName.truthy = false ∨ b.courseCode.truthy = false ∨
      b.comments.truthy = false ∨ b.rating.truthy = false
  · have hr := router_post_falsy pool b s hf
    refine ⟨⟨?_, ?_⟩, ?_, fun _ => hr, ?_⟩
    · rintro ⟨h1, h2, h3, h4, -⟩
      rcases hf with h | h | h | h <;> simp_all
    · rw [hr]; intro h; exact absurd h (by simp [allFieldsRequired, ratingOutOfRange])
    · rw [hr]; intro h; exact absurd h (by simp [allFieldsRequired, ratingOutOfRange])
    · rintro ⟨h1, h2, h3, h4, -⟩
      rcases hf with h | h | h | h <;> simp_all
  · have hf' := hf
    simp only [not_or, Bool.not_eq_false] at hf'
    obtain ⟨h1, h2, h3, h4⟩ := hf'
    have hr := router_post_truthy pool b s x h1 h2 h3 h4 hx
    by_cases ho : x.lt (.fin 1) = true ∨ (JsNum.fin 5).lt x = true
    · rw [if_pos (by rcases ho with ho | ho <;> simp [ho])] at hr
      refine ⟨⟨?_, ?_⟩, ?_, fun h => absurd h hf, fun _ => hr⟩
      · rintro ⟨-, -, -, -, h5, h6⟩
        rcases ho with ho | ho <;> simp_all
      · rw [hr]; intro h; exact absurd h (by simp [allFieldsRequired, ratingOutOfRange])
      · rw [hr]; intro h; exact absurd h (by simp [allFieldsRequired, ratingOutOfRange])
    · simp only [not_or, Bool.not_eq_true] at ho
      rw [if_neg (by simp [ho.1, ho.2])] at hr
      have hi : insertFeedback pool b s =
          (⟨201, .done "Feedback submitted successfully" rs.head?⟩, s') := by
        simp only [insertFeedback, hq]
      rw [hi] at hr
      refine ⟨⟨fun _ => by rw [hr], fun _ => ⟨h1, h2, h3, h4, ho.1, ho.2⟩⟩, fun _ => hr,
        fun h => absurd h hf, ?_⟩
      rintro ⟨-, -, -, -, h5⟩
      rcases h5 with h5 | h5 <;> simp_all

/-- Witness for C3: a rating of 4 against the table. -/
theorem C3_create_response_witness :
    (((JsVal.str "Ada").truthy = true ∧ (JsVal.str "CS101").truthy = true ∧
        (JsVal.str "A fine course").truthy = true ∧ (JsVal.num (.fin 4)).truthy = true ∧
        (JsNum.fin 4).lt (.fin 1) = false ∧ (JsNum.fin 5).lt (.fin 4) = false) ↔
      (router_post tablePool ⟨.str "Ada", .str "CS101", .str "A fine course", .num (.fin 4)⟩
        ⟨[], 1, 0⟩).1.status = 201) :=
  (C3_create_response tablePool ⟨.str "Ada", .str "CS101", .str "A fine course", .num (.fin 4)⟩
    ⟨[], 1, 0⟩ ⟨[⟨1, "Ada", "CS101", "A fine course", 4, 0⟩], 2, 0⟩ (.fin 4)
    [⟨1, "Ada", "CS101", "A fine course", 4, 0⟩] rfl (by decide)).1

/-! ## The table and the delete handler -/

theorem insertByCreatedAtDesc_perm (r : FeedbackRecord) (xs : List FeedbackRecord) :
    (insertByCreatedAtDesc r xs).Perm (r :: xs) := by
  induction xs with
  | nil => exact List.Perm.refl _
  | cons x xs ih =>
    unfold insertByCreatedAtDesc
    split
    · exact List.Perm.refl _
    · exact (List.Perm.cons x ih).trans (List.Perm.swap r x xs)

theorem orderByCreatedAtDesc_perm (rs : List FeedbackRecord) :
    (orderByCreatedAtDesc rs).Perm rs := by
  induction rs with
  | nil => exact List.Perm.refl _
  | cons r rs ih =>
    exact (insertByCreatedAtDesc_perm r _).trans (List.Perm.cons r ih)

theorem mem_orderByCreatedAtDesc (r : FeedbackRecord) (rs : List FeedbackRecord) :
    r ∈ orderByCreatedAtDesc rs ↔ r ∈ rs :=
  (orderByCreatedAtDesc_perm rs).mem_iff

theorem tablePool_select (s : Store) :
    tablePool.query selectSql [] s = (.rows (orderByCreatedAtDesc s.rows), s) := by
  simp [tablePool, Store.query]

theorem tablePool_delete (id : String) (s : Store) :
    tablePool.query deleteSql [.str id] s =
      (.rows (s.rows.filter fun r => decodeId id = some r.id),
        { s with rows := s.rows.filter fun r => ¬ decodeId id = some r.id }) := by
  have h1 : deleteSql ≠ selectSql := by decide
  have h2 : deleteSql ≠ insertSql := by decide
  simp [tablePool, Store.query, h1, h2]

theorem router_get_table (s : Store) :
    router_get tablePool s = (⟨200, .rows (orderByCreatedAtDesc s.rows)⟩, s) := by
  simp [router_get, tablePool_select]

/-- C4: against the table, for every store state and path parameter. If no row has the
identifier the parameter denotes, the delete handler answers 404 "Feedback not found"
and the store state is unchanged. If some row has it, the handler answers 200 with the
success message and a row of the table bearing that identifier; the list handler run
on the resulting state answers 200 with rows none of which bears that identifier, all
of which were in the table, and among which is every row of the table with another
identifier. -/
theorem C4_delete (s : Store) (id : String) :
    ((∀ r ∈ s.rows, decodeId id ≠ some r.id) →
      router_delete tablePool id s = (⟨404, .error "Feedback not found" none⟩, s)) ∧
    ((∃ r ∈ s.rows, decodeId id = some r.id) →
      ∃ r ∈ s.rows, decodeId id = some r.id ∧
        (router_delete tablePool id s).1 =
          ⟨200, .done "Feedback deleted successfully" (some r)⟩ ∧
        ∃ rs, (router_get tablePool (router_delete tablePool id s).2).1 = ⟨200, .rows rs⟩ ∧
          (∀ r' ∈ rs, decodeId id ≠ some r'.id) ∧
          (∀ r' ∈ rs, r' ∈ s.rows) ∧
          (∀ r' ∈ s.rows, decodeId id ≠ some r'.id → r' ∈ rs)) := by
  constructor
  · intro h
    have hnone : (s.rows.filter fun r => decodeId id = some r.id) = [] := by
      rw [List.filter_eq_nil_iff]
      intro r hr
      simpa using h r hr
    have hall : (s.rows.filter fun r => ¬ decodeId id = some r.id) = s.rows := by
      rw [List.filter_eq_self]
      intro r hr
      simpa using h r hr
    simp only [router_delete, tablePool_delete, hnone, hall]
  · rintro ⟨r0, hr0, hid0⟩
    have hne : (s.rows.filter fun r => decodeId id = some r.id) ≠ [] := by
      intro h
      rw [List.filter_eq_nil_iff] at h
      exact h r0 hr0 (by simpa using hid0)
    obtain ⟨r, rest, hrr⟩ := List.exists_cons_of_ne_nil hne
    have hmem : r ∈ s.rows.filter fun r => decodeId id = some r.id := by
      rw [hrr]; exact List.mem_cons_self _ _
    rw [List.mem_filter] at hmem
    refine ⟨r, hmem.1, by simpa using hmem.2, ?_, ?_⟩
    · simp only [router_delete, tablePool_delete, hrr]
    · refine ⟨orderByCreatedAtDesc (s.rows.filter fun r => ¬ decodeId id = some r.id), ?_, ?_, ?_, ?_⟩
      · simp only [router_delete, tablePool_delete, hrr, router_get_table]
      · intro r' hr'
        rw [mem_orderByCreatedAtDesc, List.mem_filter] at hr'
        simpa using hr'.2
      · intro r' hr'
        rw [mem_orderByCreatedAtDesc, List.mem_filter] at hr'
        exact hr'.1
      · intro r' hr' hne'
        rw [mem_orderByCreatedAtDesc, List.mem_filter]
        exact ⟨hr', by simpa using hne'⟩

/-- Witness for C4: from a table holding the identifiers 1 and 2, deleting identifier 7,
which no row has, and deleting identifier 2. -/
theorem C4_delete_witness :
    router_delete tablePool "7" sampleStore =
      (⟨404, .error "Feedback not found" none⟩, sampleStore) ∧
    ∃ r ∈ sampleStore.rows, decodeId "2" = some r.id ∧
      (router_delete tablePool "2" sampleStore).1 =
        ⟨200, .done "Feedback deleted successfully" (some r)⟩ ∧
      ∃ rs, (router_get tablePool (router_delete tablePool "2" sampleStore).2).1 =
          ⟨200, .rows rs⟩ ∧
        (∀ r' ∈ rs, decodeId "2" ≠ some r'.id) ∧
        (∀ r' ∈ rs, r' ∈ sampleStore.rows) ∧
        (∀ r' ∈ sampleStore.rows, decodeId "2" ≠ some r'.id → r' ∈ rs) :=
  ⟨(C4_delete sampleStore "7").1 (by decide),
    (C4_delete sampleStore "2").2 ⟨⟨2, "Bob", "MATH201", "Hard but fair", 3, 20⟩,
      by decide, by decide⟩⟩

/-! ## Rounding to binary64 -/

theorem roundHalfEven_sub_le (q : ℚ) : |(roundHalfEven q : ℚ) - q| ≤ 1 / 2 := by
  have h1 : (⌊q⌋ : ℚ) ≤ q := Int.floor_le q
  have h2 : q < (⌊q⌋ : ℚ) + 1 := Int.lt_floor_add_one q
  unfold roundHalfEven
  simp only
  split_ifs with ha hb hc
  · rw [abs_le]; constructor <;> linarith
  · push_cast; rw [abs_le]; constructor <;> linarith
  · rw [abs_le]; constructor <;> linarith
  · push_cast; rw [abs_le]; constructor <;> linarith

theorem roundHalfEven_intCast (n : ℤ) : roundHalfEven (n : ℚ) = n := by
  unfold roundHalfEven
  simp only [Int.floor_intCast, sub_self]
  rw [if_pos (by norm_num)]

theorem floorLog2_le (q : ℚ) (hq : 0 < q) : (2 : ℚ) ^ floorLog2 q ≤ q := by
  unfold floorLog2
  simp only
  split_ifs with h
  · exact h
  · have hnum : 0 < q.num := Rat.num_pos.mpr hq
    have hden : 0 < q.den := q.den_pos
    have hn0 : q.num.natAbs ≠ 0 := by omega
    have h1 : 2 ^ q.num.natAbs.log2 ≤ q.num.natAbs := Nat.log2_self_le hn0
    have h2 : q.den < 2 ^ (q.den.log2 + 1) := Nat.lt_log2_self
    have h1q : (2 : ℚ) ^ q.num.natAbs.log2 ≤ (q.num : ℚ) := by
      have : ((2 ^ q.num.natAbs.log2 : ℕ) : ℚ) ≤ ((q.num.natAbs : ℕ) : ℚ) := by exact_mod_cast h1
      have hcast : ((q.num.natAbs : ℕ) : ℚ) = (q.num : ℚ) := by
        rw [Nat.cast_natAbs, abs_of_nonneg hnum.le]
      rw [hcast] at this
      exact_mod_cast this
    have h2q : (q.den : ℚ) ≤ (2 : ℚ) ^ (q.den.log2 + 1) := by exact_mod_cast h2.le
    have hexp : ((q.num.natAbs.log2 : ℤ) - (q.den.log2 : ℤ) - 1) =
        ((q.num.natAbs.log2 : ℕ) : ℤ) - ((q.den.log2 + 1 : ℕ) : ℤ) := by push_cast; ring
    rw [hexp, zpow_natCast_sub_natCast₀ (by norm_num : (2 : ℚ) ≠ 0)]
    have hdq : (0 : ℚ) < q.den := by exact_mod_cast hden
    calc (2 : ℚ) ^ q.num.natAbs.log2 / 2 ^ (q.den.log2 + 1)
        ≤ (q.num : ℚ) / q.den := by
          apply div_le_div₀ ?_ h1q hdq h2q
          exact_mod_cast hnum.le
      _ = q := Rat.num_div_den q

/-- The rounding of a positive rational, unfolded. -/
theorem roundDouble_of_pos (q : ℚ) (hq : 0 < q) :
    roundDouble q =
      if (2 : ℚ) ^ (1024 : ℕ) ≤
          (roundHalfEven (q / 2 ^ (max (floorLog2 q) (-1022) - 52)) : ℚ) *
            2 ^ (max (floorLog2 q) (-1022) - 52)
      then .inf false
      else .fin ((roundHalfEven (q / 2 ^ (max (floorLog2 q) (-1022) - 52)) : ℚ) *
            2 ^ (max (floorLog2 q) (-1022) - 52)) := by
  unfold roundDouble
  rw [if_neg hq.ne']
  simp only [abs_of_pos hq, not_lt.mpr hq.le, decide_False, if_false]

/-- Relative error of rounding in the normal range: the candidate value is within
`q / 2 ^ 53` of `q`, and the result is that candidate unless it overflows. -/
theorem roundDouble_error (q : ℚ) (hq : 0 < q) (hmin : (2 : ℚ) ^ (-1022 : ℤ) ≤ q) :
    ∃ r : ℚ, |r - q| ≤ q / 2 ^ (53 : ℕ) ∧
      roundDouble q = if (2 : ℚ) ^ (1024 : ℕ) ≤ r then .inf false else .fin r := by
  rw [roundDouble_of_pos q hq]
  set e := max (floorLog2 q) (-1022) with he
  have hu : (0 : ℚ) < 2 ^ (e - 52) := zpow_pos (by norm_num) _
  have hle : (2 : ℚ) ^ e ≤ q := by
    rcases max_cases (floorLog2 q) (-1022) with ⟨h, -⟩ | ⟨h, -⟩
    · rw [he, h]; exact floorLog2_le q hq
    · rw [he, h]; exact hmin
  refine ⟨(roundHalfEven (q / 2 ^ (e - 52)) : ℚ) * 2 ^ (e - 52), ?_, rfl⟩
  have h1 := roundHalfEven_sub_le (q / 2 ^ (e - 52))
  have h2 : (roundHalfEven (q / 2 ^ (e - 52)) : ℚ) * 2 ^ (e - 52) - q =
      ((roundHalfEven (q / 2 ^ (e - 52)) : ℚ) - q / 2 ^ (e - 52)) * 2 ^ (e - 52) := by
    field_simp
  rw [h2, abs_mul, abs_of_pos hu]
  have h3 : (2 : ℚ) ^ (e - 52) = 2 ^ e / 2 ^ (52 : ℕ) := by
    rw [zpow_sub₀ (by norm_num : (2 : ℚ) ≠ 0)]; norm_num
  calc |(roundHalfEven (q / 2 ^ (e - 52)) : ℚ) - q / 2 ^ (e - 52)| * 2 ^ (e - 52)
      ≤ 1 / 2 * 2 ^ (e - 52) := by
        exact mul_le_mul_of_nonneg_right h1 hu.le
    _ = 2 ^ e / 2 ^ (53 : ℕ) := by rw [h3]; ring
    _ ≤ q / 2 ^ (53 : ℕ) := by
        exact div_le_div_of_nonneg_right hle (by positivity)

/-- Integers below `2 ^ 53` are representable: rounding leaves them as they are. -/
theorem roundDouble_natCast (n : ℕ) (hn : n < 2 ^ 53) : roundDouble (n : ℚ) = .fin n := by
  rcases Nat.eq_zero_or_pos n with h0 | hpos
  · subst h0; simp [roundDouble]
  · have hq : (0 : ℚ) < n := by exact_mod_cast hpos
    rw [roundDouble_of_pos _ hq]
    set e := max (floorLog2 (n : ℚ)) (-1022) with he
    have hfl := floorLog2_le (n : ℚ) hq
    have hlt : (n : ℚ) < (2 : ℚ) ^ (53 : ℤ) := by
      have h53 : (2 : ℚ) ^ (53 : ℤ) = ((2 ^ 53 : ℕ) : ℚ) := by norm_num
      rw [h53]
      exact_mod_cast hn
    have hfl53 : floorLog2 (n : ℚ) < 53 := by
      have := lt_of_le_of_lt hfl hlt
      exact (zpow_lt_zpow_iff_right₀ (by norm_num : (1 : ℚ) < 2)).mp this
    have he52 : e ≤ 52 := by
      rw [he]; exact max_le (by omega) (by norm_num)
    obtain ⟨k, hk⟩ : ∃ k : ℕ, (52 - e : ℤ) = k := ⟨(52 - e).toNat, by omega⟩
    have hu : (2 : ℚ) ^ (e - 52) = 1 / 2 ^ k := by
      have : e - 52 = -(k : ℤ) := by omega
      rw [this, zpow_neg, zpow_natCast]; simp
    have hdiv : (n : ℚ) / 2 ^ (e - 52) = ((n * 2 ^ k : ℕ) : ℤ) := by
      rw [hu]; push_cast; field_simp
    rw [hdiv, roundHalfEven_intCast, hu]
    have hval : (((n * 2 ^ k : ℕ) : ℤ) : ℚ) * (1 / 2 ^ k) = n := by
      push_cast; field_simp
    rw [hval, if_neg]
    rw [not_le]
    calc (n : ℚ) < (2 : ℚ) ^ (53 : ℤ) := hlt
      _ ≤ 2 ^ (1024 : ℕ) := by norm_num

/-! ## Numeric strings made of decimal digits -/

/-- A decimal digit character. -/
theorem digitValue_lt_ten (c : Char) (d : ℕ) (h : digitValue c = some d) (hd : d < 10) :
    48 ≤ c.toNat ∧ c.toNat ≤ 57 := by
  unfold digitValue at h
  simp only at h
  split_ifs at h with h1 h2 h3
  · exact h1
  · simp only [Option.some.injEq] at h; omega
  · simp only [Option.some.injEq] at h; omega

theorem digitsFold_none (radix : ℕ) (cs : List Char) :
    cs.foldl (fun acc c =>
      match acc, digitValue c with
      | some a, some d => if d < radix then some (a * radix + d) else none
      | _, _ => none) none = none := by
  induction cs with
  | nil => rfl
  | cons c cs ih => simpa using ih

theorem digitsFold_some (cs : List Char) (a v : ℕ)
    (h : cs.foldl (fun acc c =>
      match acc, digitValue c with
      | some a, some d => if d < 10 then some (a * 10 + d) else none
      | _, _ => none) (some a) = some v) :
    ∀ c ∈ cs, 48 ≤ c.toNat ∧ c.toNat ≤ 57 := by
  induction cs generalizing a with
  | nil => intro c hc; cases hc
  | cons c cs ih =>
    rw [List.foldl_cons] at h
    cases hd : digitValue c with
    | none =>
      simp only [hd] at h
      rw [digitsFold_none] at h
      cases h
    | some d =>
      simp only [hd] at h
      by_cases hlt : d < 10
      · rw [if_pos hlt] at h
        intro c' hc'
        rcases List.mem_cons.mp hc' with rfl | hc'
        · exact digitValue_lt_ten _ d hd hlt
        · exact ih _ h c' hc'
      · rw [if_neg hlt, digitsFold_none] at h
        cases h

theorem digitsValue_digits (cs : List Char) (v : ℕ) (h : digitsValue 10 cs = some v) :
    cs ≠ [] ∧ ∀ c ∈ cs, 48 ≤ c.toNat ∧ c.toNat ≤ 57 := by
  cases cs with
  | nil => simp [digitsValue] at h
  | cons c cs =>
    exact ⟨List.cons_ne_nil _ _, digitsFold_some (c :: cs) 0 v (by simpa [digitsValue] using h)⟩

theorem dropWhile_of_head {α : Type} (p : α → Bool) (l : List α)
    (h : ∀ a, l.head? = some a → p a = false) : l.dropWhile p = l := by
  cases l with
  | nil => rfl
  | cons a l => simp [List.dropWhile, h a rfl]

theorem digit_not_whiteSpace (c : Char) (h : 48 ≤ c.toNat ∧ c.toNat ≤ 57) :
    isStrWhiteSpaceChar c = false := by
  unfold isStrWhiteSpaceChar
  simp only [Bool.or_eq_false_iff, Bool.and_eq_false_iff, decide_eq_false_iff_not]
  omega

theorem trimChars_digits (cs : List Char) (h : ∀ c ∈ cs, 48 ≤ c.toNat ∧ c.toNat ≤ 57) :
    trimChars cs = cs := by
  unfold trimChars
  rw [dropWhile_of_head _ cs, dropWhile_of_head _ cs.reverse, List.reverse_reverse]
  · intro a ha
    exact digit_not_whiteSpace a (h a (List.mem_reverse.mp (List.mem_of_mem_head? ha)))
  · intro a ha
    exact digit_not_whiteSpace a (h a (List.mem_of_mem_head? ha))

theorem unsignedDecimalValue_digits (cs : List Char) (v : ℕ) (h : digitsValue 10 cs = some v) :
    unsignedDecimalValue cs = some (v : ℚ) := by
  have hd := (digitsValue_digits cs v h).2
  have hne : ∀ (x : Char), (¬ (48 ≤ x.toNat ∧ x.toNat ≤ 57)) → ∀ c ∈ cs, c ≠ x := by
    intro x hx c hc hcx
    exact hx (hcx ▸ hd c hc)
  have p1 : ∀ c ∈ cs, (c != 'e' && c != 'E') = true := by
    intro c hc
    simp [hne 'e' (by decide) c hc, hne 'E' (by decide) c hc]
  have p2 : ∀ c ∈ cs, (c != '.') = true := by
    intro c hc
    simp [hne '.' (by decide) c hc]
  have t1 : cs.takeWhile (fun c => c != 'e' && c != 'E') = cs := List.takeWhile_eq_self_iff.mpr p1
  have d1 : cs.dropWhile (fun c => c != 'e' && c != 'E') = [] := List.dropWhile_eq_nil_iff.mpr p1
  have t2 : cs.takeWhile (fun c => c != '.') = cs := List.takeWhile_eq_self_iff.mpr p2
  have d2 : cs.dropWhile (fun c => c != '.') = [] := List.dropWhile_eq_nil_iff.mpr p2
  unfold unsignedDecimalValue
  simp [List.span_eq_take_drop, t1, d1, t2, d2, h]

theorem stringToNumber_digits (s : String) (v : ℕ) (h : digitsValue 10 s.data = some v) :
    stringToNumber s = roundDouble v := by
  obtain ⟨hnil, hd⟩ := digitsValue_digits s.data v h
  have hne : ∀ (x : Char), (¬ (48 ≤ x.toNat ∧ x.toNat ≤ 57)) → ∀ c ∈ s.data, c ≠ x := by
    intro x hx c hc hcx
    exact hx (hcx ▸ hd c hc)
  have hu : strUnsignedDecimalLiteral s.data = some (roundDouble v) := by
    unfold strUnsignedDecimalLiteral
    rw [if_neg, unsignedDecimalValue_digits _ v h]
    · rfl
    · intro heq
      exact hne 'I' (by decide) 'I' (by rw [heq]; simp) rfl
  have hdec : strDecimalLiteral s.data = some (roundDouble v) := by
    unfold strDecimalLiteral
    split
    · rename_i cs heq
      exact absurd rfl (hne '+' (by decide) '+' (by rw [heq]; simp))
    · rename_i cs heq
      exact absurd rfl (hne '-' (by decide) '-' (by rw [heq]; simp))
    · exact hu
  have hnum : strNumericLiteral s.data = some (roundDouble v) := by
    unfold strNumericLiteral
    split
    · rename_i p ds heq
      have hp : ∀ x : Char, (¬ (48 ≤ x.toNat ∧ x.toNat ≤ 57)) → p ≠ x :=
        fun x hx => hne x hx p (by rw [heq]; simp)
      rw [if_neg, if_neg, if_neg]
      · exact hdec
      · rintro (h | h)
        · exact hp 'b' (by decide) h
        · exact hp 'B' (by decide) h
      · rintro (h | h)
        · exact hp 'o' (by decide) h
        · exact hp 'O' (by decide) h
      · rintro (h | h)
        · exact hp 'x' (by decide) h
        · exact hp 'X' (by decide) h
    · exact hdec
  unfold stringToNumber
  rw [trimChars_digits _ hd]
  split
  · rename_i heq; exact absurd heq hnil
  · rw [hnum]; rfl

/-! ## Records persisted by the create handler -/

theorem tablePool_insert (n c m r : JsVal) (s : Store) :
    tablePool.query insertSql [n, c, m, r] s =
      match textColumn n, textColumn c, textColumn m, integerColumn r with
      | some n, some c, some m, some r =>
        (.rows [⟨s.nextId, n, c, m, r, s.clock⟩],
          { s with rows := s.rows ++ [⟨s.nextId, n, c, m, r, s.clock⟩],
                   nextId := s.nextId + 1 })
      | _, _, _, _ => (.error "invalid input value for column", s) := by
  have h1 : insertSql ≠ selectSql := by decide
  simp only [tablePool, Store.query, h1, if_false, if_true]

theorem textColumn_eq_some (v : JsVal) (t : String) (h : textColumn v = some t) :
    v = .str t := by
  cases v <;> simp [textColumn] at h
  rw [h]

theorem insertFeedback_table_rows (b : CreateBody) (s : Store) (r : FeedbackRecord)
    (hr : r ∈ (insertFeedback tablePool b s).2.rows) (hnew : r ∉ s.rows) :
    b.studentName = .str r.student_name ∧ b.courseCode = .str r.course_code ∧
      b.comments = .str r.comments ∧ integerColumn b.rating = some r.rating ∧
      r.id = s.nextId ∧ r.created_at = s.clock := by
  unfold insertFeedback at hr
  rw [tablePool_insert] at hr
  cases hn : textColumn b.studentName with
  | none => simp only [hn] at hr; exact absurd hr hnew
  | some n =>
    cases hc : textColumn b.courseCode with
    | none => simp only [hn, hc] at hr; exact absurd hr hnew
    | some c =>
      cases hm : textColumn b.comments with
      | none => simp only [hn, hc, hm] at hr; exact absurd hr hnew
      | some m =>
        cases hk : integerColumn b.rating with
        | none => simp only [hn, hc, hm, hk] at hr; exact absurd hr hnew
        | some k =>
          simp only [hn, hc, hm, hk, List.mem_append, List.mem_singleton] at hr
          rcases hr with hr | hr
          · exact absurd hr hnew
          · subst hr
            exact ⟨textColumn_eq_some _ _ hn, textColumn_eq_some _ _ hc,
              textColumn_eq_some _ _ hm, rfl, rfl, rfl⟩

theorem roundDouble_natCast_gt_five (n : ℕ) (hn : 6 ≤ n) :
    (JsNum.fin 5).lt (roundDouble (n : ℚ)) = true := by
  have hq : (6 : ℚ) ≤ n := by exact_mod_cast hn
  have hmin : (2 : ℚ) ^ (-1022 : ℤ) ≤ n := by
    have : (2 : ℚ) ^ (-1022 : ℤ) ≤ 1 := zpow_le_one_of_nonpos₀ (by norm_num) (by norm_num)
    linarith
  obtain ⟨r, herr, h⟩ := roundDouble_error (n : ℚ) (by linarith) hmin
  rw [h]
  split_ifs
  · rfl
  · simp only [JsNum.lt, decide_eq_true_eq]
    have h1 := (abs_le.mp herr).1
    have h2 : (n : ℚ) / 2 ^ (53 : ℕ) ≤ n / 6 := by
      apply div_le_div_of_nonneg_left (by linarith) (by norm_num) (by norm_num)
    linarith

theorem integerColumn_range (v : JsVal) (k : ℤ) (x : JsNum)
    (hk : integerColumn v = some k) (hx : v.toNumber = .ok x)
    (h1 : x.lt (.fin 1) = false) (h5 : (JsNum.fin 5).lt x = false) :
    1 ≤ k ∧ k ≤ 5 := by
  cases v with
  | undefined => simp [integerColumn] at hk
  | null => simp [integerColumn] at hk
  | bool b => simp [integerColumn] at hk
  | obj p => simp [integerColumn] at hk
  | num y =>
    cases y with
    | nan => simp [integerColumn] at hk
    | inf s => simp [integerColumn] at hk
    | fin q =>
      simp only [integerColumn] at hk
      split_ifs at hk with hden
      simp only [Option.some.injEq] at hk
      simp only [JsVal.toNumber, Except.ok.injEq] at hx
      subst hx
      simp only [JsNum.lt, decide_eq_false_iff_not, not_lt] at h1 h5
      have hq : (q.num : ℚ) = q := Rat.coe_int_num_of_den_eq_one hden
      rw [← hq, hk] at h1 h5
      constructor
      · exact_mod_cast h1
      · exact_mod_cast h5
  | str t =>
    cases hn : digitsValue 10 t.data with
    | none => simp [integerColumn, hn] at hk
    | some n =>
    simp [integerColumn, hn] at hk
    subst hk
    simp only [JsVal.toNumber, Except.ok.injEq] at hx
    rw [stringToNumber_digits t n hn] at hx
    subst hx
    constructor
    · rcases Nat.eq_zero_or_pos n with h0 | hpos
      · subst h0
        have : roundDouble ((0 : ℕ) : ℚ) = .fin 0 := by simp [roundDouble]
        rw [this] at h1
        simp [JsNum.lt] at h1
      · exact_mod_cast hpos
    · by_contra hgt
      have h6 : 6 ≤ n := by
        have : (5 : ℤ) < n := not_le.mp hgt
        omega
      rw [roundDouble_natCast_gt_five n h6] at h5
      cases h5

/-- C2, as stated, fails: a request with a blank student name and course code, the
comment "short" and the rating 3 passes the checks of the create handler, and the table
then holds a record that breaks the trimming and length invariants. -/
theorem C2_counterexample :
    router_post tablePool ⟨.str " ", .str " ", .str "short", .num (.fin 3)⟩ ⟨[], 1, 0⟩ =
      (⟨201, .done "Feedback submitted successfully" (some ⟨1, " ", " ", "short", 3, 0⟩)⟩,
        ⟨[⟨1, " ", " ", "short", 3, 0⟩], 2, 0⟩) ∧
    ¬ (⟨1, " ", " ", "short", 3, 0⟩ : FeedbackRecord).invariants ∧
    jsLength (trim "short") = 5 ∧ trim " " = "" := by
  refine ⟨by decide, by decide, by decide, by decide⟩

/-- C2 (amended): every record that the create handler adds to the table has a rating
among the integers 1 to 5 and non-empty comments, student name and course code, equal to
the strings of the request. (Nothing is trimmed and no minimum length is imposed on the
comments.) -/
theorem C2_persisted_record (b : CreateBody) (s : Store) (r : FeedbackRecord)
    (hr : r ∈ (router_post tablePool b s).2.rows) (hnew : r ∉ s.rows) :
    (1 ≤ r.rating ∧ r.rating ≤ 5) ∧ r.comments ≠ "" ∧ r.student_name ≠ "" ∧
      r.course_code ≠ "" ∧ b.studentName = .str r.student_name ∧
      b.courseCode = .str r.course_code ∧ b.comments = .str r.comments := by
  by_cases hf : b.studentName.truthy = false ∨ b.courseCode.truthy = false ∨
      b.comments.truthy = false ∨ b.rating.truthy = false
  · rw [router_post_falsy tablePool b s hf] at hr
    exact absurd hr hnew
  · simp only [not_or, Bool.not_eq_false] at hf
    obtain ⟨h1, h2, h3, h4⟩ := hf
    cases hx : b.rating.toNumber with
    | error m =>
      rw [router_post_throws tablePool b s m h1 h2 h3 h4 hx] at hr
      exact absurd hr hnew
    | ok x =>
      rw [router_post_truthy tablePool b s x h1 h2 h3 h4 hx] at hr
      by_cases ho : (x.lt (.fin 1) || (JsNum.fin 5).lt x) = true
      · rw [if_pos ho] at hr
        exact absurd hr hnew
      · rw [if_neg ho] at hr
        simp only [Bool.or_eq_true, not_or, Bool.not_eq_true] at ho
        obtain ⟨e1, e2, e3, ek, -, -⟩ := insertFeedback_table_rows b s r hr hnew
        refine ⟨integerColumn_range _ _ x ek hx ho.1 ho.2, ?_, ?_, ?_, e1, e2, e3⟩
        · rw [e3] at h3; simpa [JsVal.truthy] using h3
        · rw [e1] at h1; simpa [JsVal.truthy] using h1
        · rw [e2] at h2; simpa [JsVal.truthy] using h2

/-- Witness for C2: a request with the rating "4" against an empty table. -/
theorem C2_persisted_record_witness :
    (1 ≤ (4 : ℤ) ∧ (4 : ℤ) ≤ 5) ∧ "A fine course" ≠ "" ∧ "Ada" ≠ "" ∧ "CS101" ≠ "" ∧
      JsVal.str "Ada" = .str "Ada" ∧ JsVal.str "CS101" = .str "CS101" ∧
      JsVal.str "A fine course" = .str "A fine course" :=
  C2_persisted_record ⟨.str "Ada", .str "CS101", .str "A fine course", .str "4"⟩ ⟨[], 1, 0⟩
    ⟨1, "Ada", "CS101", "A fine course", 4, 0⟩ (by decide!) (by decide)

/-! ## Dashboard: the average rating -/

theorem roundDouble_intCast (z : ℤ) (h0 : 0 ≤ z) (h : z < 2 ^ 53) :
    roundDouble (z : ℚ) = .fin z := by
  obtain ⟨n, rfl⟩ := Int.eq_ofNat_of_zero_le h0
  have hn : n < 2 ^ 53 := by exact_mod_cast h
  simpa using roundDouble_natCast n hn

theorem ratings_sum_exact (rs : List ℤ) (acc : ℤ) (h0 : 0 ≤ acc)
    (h : ∀ r ∈ rs, 1 ≤ r ∧ r ≤ 5) (hb : acc + 5 * rs.length < 2 ^ 53) :
    rs.foldl (fun (a : JsNum) (b : ℤ) => a.add (.ofInt b)) (.fin acc) =
      .fin ((acc + rs.sum : ℤ) : ℚ) := by
  induction rs generalizing acc with
  | nil => simp
  | cons r rs ih =>
    have hr := h r (List.mem_cons_self _ _)
    have hlen : ((r :: rs).length : ℤ) = rs.length + 1 := by simp
    rw [hlen] at hb
    rw [List.foldl_cons]
    have hstep : (JsNum.fin (acc : ℚ)).add (.ofInt r) = .fin ((acc + r : ℤ) : ℚ) := by
      simp only [JsNum.add, JsNum.ofInt]
      rw [← Int.cast_add]
      exact roundDouble_intCast _ (by omega) (by omega)
    rw [hstep, ih (acc + r) (by omega) (fun x hx => h x (List.mem_cons_of_mem _ hx)) (by omega)]
    simp [add_assoc]

theorem ratings_sum_bounds (rs : List ℤ) (h : ∀ r ∈ rs, 1 ≤ r ∧ r ≤ 5) :
    (rs.length : ℤ) ≤ rs.sum ∧ rs.sum ≤ 5 * rs.length := by
  induction rs with
  | nil => simp
  | cons r rs ih =>
    have hr := h r (List.mem_cons_self _ _)
    have := ih (fun x hx => h x (List.mem_cons_of_mem _ hx))
    simp only [List.sum_cons, List.length_cons]
    push_cast
    constructor <;> omega

theorem meanRating_eq (fs : List FeedbackRecord) :
    meanRating fs = (((fs.map fun f => f.rating).sum : ℤ) : ℚ) / fs.length := by
  unfold meanRating
  congr 1
  induction fs with
  | nil => simp
  | cons f fs ih => simp [ih]

/-- Rounding a quotient of integers to one decimal: when `20 * S` is below `2 ^ 53`, the
integer `toFixed` picks for the rounded quotient is within one half of ten times the
exact quotient. -/
theorem toFixed1_quotient (S t : ℤ) (ht : 0 < t) (hS : t ≤ S) (hS5 : S ≤ 5 * t)
    (hbig : 20 * S < 2 ^ 53) :
    ∃ n : ℕ, toFixed1 (roundDouble ((S : ℚ) / t)) = .decimal false n ∧
      |(n : ℚ) / 10 - (S : ℚ) / t| ≤ 1 / 20 := by
  have htq : (0 : ℚ) < t := by exact_mod_cast ht
  have hSq : (t : ℚ) ≤ S := by exact_mod_cast hS
  have hS5q : (S : ℚ) ≤ 5 * t := by exact_mod_cast hS5
  have hbigq : 20 * (S : ℚ) < 2 ^ (53 : ℕ) := by exact_mod_cast hbig
  set q : ℚ := (S : ℚ) / t with hq
  have hq1 : 1 ≤ q := by rw [hq, le_div_iff₀ htq]; linarith
  have hq5 : q ≤ 5 := by rw [hq, div_le_iff₀ htq]; linarith
  have hqt : q * t = S := by rw [hq]; field_simp
  have hmin : (2 : ℚ) ^ (-1022 : ℤ) ≤ q := by
    have : (2 : ℚ) ^ (-1022 : ℤ) ≤ 1 := zpow_le_one_of_nonpos₀ (by norm_num) (by norm_num)
    linarith
  obtain ⟨r, herr, hr⟩ := roundDouble_error q (by linarith) hmin
  have herr' := abs_le.mp herr
  have hq53 : q / 2 ^ (53 : ℕ) ≤ 1 / 2 := by
    rw [div_le_iff₀ (by positivity)]; norm_num; linarith
  have hrpos : 0 < r := by linarith
  have hr6 : r ≤ 6 := by linarith
  have h1024 : r < 2 ^ (1024 : ℕ) := lt_of_le_of_lt hr6 (by norm_num)
  have h21 : r < 10 ^ (21 : ℕ) := lt_of_le_of_lt hr6 (by norm_num)
  rw [hr, if_neg (not_le.mpr h1024)]
  have habs : |r| = r := abs_of_pos hrpos
  unfold toFixed1
  simp only [habs]
  rw [if_neg (not_le.mpr h21)]
  have hneg : decide (r < 0) = false := by simp [hrpos.le]
  rw [hneg]
  refine ⟨⌊r * 10 + 1 / 2⌋.toNat, rfl, ?_⟩
  set z : ℤ := ⌊r * 10 + 1 / 2⌋ with hz
  have hz0 : 0 ≤ z := Int.floor_nonneg.mpr (by positivity)
  have hzn : ((z.toNat : ℕ) : ℚ) = (z : ℚ) := by
    have : ((z.toNat : ℕ) : ℤ) = z := Int.toNat_of_nonneg hz0
    exact_mod_cast congrArg (fun w : ℤ => (w : ℚ)) this
  rw [hzn]
  have hlo : (z : ℚ) ≤ r * 10 + 1 / 2 := Int.floor_le _
  have hhi : r * 10 + 1 / 2 < (z : ℚ) + 1 := Int.lt_floor_add_one _
  -- the error of the rounded quotient, scaled by the divisor
  have hE : |r * t - S| * 2 ^ (53 : ℕ) ≤ S := by
    have h1 : r * t - S = (r - q) * t := by rw [sub_mul, hqt]
    rw [h1, abs_mul, abs_of_pos htq]
    have h2 : |r - q| * t ≤ q / 2 ^ (53 : ℕ) * t := mul_le_mul_of_nonneg_right herr htq.le
    have h3 : q / 2 ^ (53 : ℕ) * t = S / 2 ^ (53 : ℕ) := by rw [← hqt]; ring
    rw [h3] at h2
    calc |r - q| * t * 2 ^ (53 : ℕ) ≤ S / 2 ^ (53 : ℕ) * 2 ^ (53 : ℕ) :=
          mul_le_mul_of_nonneg_right h2 (by positivity)
      _ = S := by field_simp
  have hE' := abs_le.mp (le_of_mul_le_mul_right (a := (2 : ℚ) ^ (53 : ℕ))
    (show |r * t - S| * 2 ^ (53 : ℕ) ≤ (S / 2 ^ (53 : ℕ)) * 2 ^ (53 : ℕ) by
      rw [div_mul_cancel₀ _ (by positivity)]; exact hE) (by positivity))
  have hsmall : (S : ℚ) / 2 ^ (53 : ℕ) < 1 / 20 := by
    rw [div_lt_iff₀ (by positivity)]; linarith
  rw [abs_le]
  constructor
  · -- the quotient is not more than a twentieth above the chosen value
    by_contra hcon
    rw [not_le] at hcon
    have h1 : ((2 * z + 1) * t : ℚ) < 20 * S := by
      have : ((z : ℚ) / 10 + 1 / 20) * t < q * t := by
        apply mul_lt_mul_of_pos_right _ htq; linarith
      rw [hqt] at this
      linarith
    have h2 : (2 * z + 1) * t + 1 ≤ 20 * S := by
      have : (2 * z + 1) * t < 20 * S := by exact_mod_cast h1
      omega
    have h3 : ((2 * z + 1) * t : ℚ) + 1 ≤ 20 * S := by exact_mod_cast h2
    have h4 : 20 * (r * t) < (2 * z + 1) * t := by
      have : (r * 10 + 1 / 2) * t < ((z : ℚ) + 1) * t := mul_lt_mul_of_pos_right hhi htq
      linarith
    linarith [hE'.1]
  · by_contra hcon
    rw [not_le] at hcon
    have h1 : (20 * S : ℚ) < (2 * z - 1) * t := by
      have : q * t < ((z : ℚ) / 10 - 1 / 20) * t := by
        apply mul_lt_mul_of_pos_right _ htq; linarith
      rw [hqt] at this
      linarith
    have h2 : 20 * S + 1 ≤ (2 * z - 1) * t := by
      have : 20 * S < (2 * z - 1) * t := by exact_mod_cast h1
      omega
    have h3 : (20 * S : ℚ) + 1 ≤ (2 * z - 1) * t := by exact_mod_cast h2
    have h4 : ((2 * z - 1) * t : ℚ) ≤ 20 * (r * t) := by
      have : (z : ℚ) * t ≤ (r * 10 + 1 / 2) * t := mul_le_mul_of_nonneg_right hlo htq.le
      linarith
    linarith [hE'.2]

/-- C5, as stated, fails when the mean lies halfway between two one-decimal values: the
result is then not the mean rounded by a fixed rule. For eleven ratings of 1 and nine of
2 the mean is 1.45 and the dashboard computes "1.4", where rounding half up gives 1.5;
for the ratings 1, 1, 1, 2 the mean is 1.25 and the dashboard computes "1.3", where
rounding half to even gives 1.2. -/
theorem C5_counterexample :
    (meanRating ratingsMeanTwentyNineTwentieths = 29 / 20 ∧
      (fetchStats ratingsMeanTwentyNineTwentieths).averageRating = .text (.decimal false 14) ∧
      FixedString.decimalText false 14 = "1.4" ∧
      roundTenthHalfUp (meanRating ratingsMeanTwentyNineTwentieths) = 15 / 10) ∧
    (meanRating ratingsMeanFiveQuarters = 5 / 4 ∧
      (fetchStats ratingsMeanFiveQuarters).averageRating = .text (.decimal false 13) ∧
      FixedString.decimalText false 13 = "1.3" ∧
      roundTenthHalfEven (meanRating ratingsMeanFiveQuarters) = 12 / 10) := by
  refine ⟨⟨by decide!, by decide!, by decide, by decide!⟩,
    ⟨by decide!, by decide!, by decide, by decide!⟩⟩

/-- C5 (amended): the dashboard's averageRating is the number 0 for the empty list. For
a non-empty list of fewer than 2 ^ 32 records with ratings from 1 to 5 it is a
non-negative decimal string with one fraction digit whose value is within 0.05 of the
arithmetic mean of the ratings, that is, a one-decimal value nearest to the mean. For
the ratings 5, 5, 3 it is "4.3", with total 3. -/
theorem C5_average_rating (fs : List FeedbackRecord) :
    (fs = [] → (fetchStats fs).averageRating = .number (.fin 0) ∧ (fetchStats fs).total = 0) ∧
    ((fetchStats [rated 1 5, rated 2 5, rated 3 3]).averageRating = .text (.decimal false 43) ∧
      FixedString.decimalText false 43 = "4.3" ∧
      (fetchStats [rated 1 5, rated 2 5, rated 3 3]).total = 3) ∧
    (fs ≠ [] → (∀ f ∈ fs, 1 ≤ f.rating ∧ f.rating ≤ 5) → fs.length < 2 ^ 32 →
      ∃ n : ℕ, (fetchStats fs).averageRating = .text (.decimal false n) ∧
        |(n : ℚ) / 10 - meanRating fs| ≤ 1 / 20) := by
  refine ⟨?_, ⟨by decide!, by decide, by decide⟩, ?_⟩
  · rintro rfl
    exact ⟨rfl, rfl⟩
  · intro hne hr hlen
    have hpos : 0 < fs.length := List.length_pos.mpr hne
    have hr' : ∀ r ∈ fs.map (fun f => f.rating), 1 ≤ r ∧ r ≤ 5 := by
      intro r hmem
      obtain ⟨f, hf, rfl⟩ := List.mem_map.mp hmem
      exact hr f hf
    have hlen' : ((fs.map fun f => f.rating).length : ℤ) = fs.length := by simp
    have hlenz : (fs.length : ℤ) < 2 ^ 32 := by exact_mod_cast hlen
    obtain ⟨hlo, hhi⟩ := ratings_sum_bounds _ hr'
    rw [hlen'] at hlo hhi
    have hsum := ratings_sum_exact (fs.map fun f => f.rating) 0 le_rfl hr'
      (by rw [hlen']; omega)
    obtain ⟨n, hn, hbound⟩ := toFixed1_quotient (fs.map fun f => f.rating).sum fs.length
      (by exact_mod_cast hpos) hlo hhi (by omega)
    refine ⟨n, ?_, ?_⟩
    · simp only [fetchStats, gt_iff_lt, hpos, if_true]
      have h0 : (JsNum.fin 0) = JsNum.fin ((0 : ℤ) : ℚ) := by simp
      rw [h0, hsum]
      simp only [JsNum.divNat, zero_add]
      rw [← hn]
      simp
    · rw [meanRating_eq]
      simpa using hbound

/-- Witness for C5: the ratings 5, 5, 3. -/
theorem C5_average_rating_witness :
    ∃ n : ℕ, (fetchStats [rated 1 5, rated 2 5, rated 3 3]).averageRating =
        .text (.decimal false n) ∧
      |(n : ℚ) / 10 - meanRating [rated 1 5, rated 2 5, rated 3 3]| ≤ 1 / 20 :=
  (C5_average_rating [rated 1 5, rated 2 5, rated 3 3]).2.2 (by decide) (by decide)
    (by decide)

/-! ## Dashboard: the rating distribution -/

theorem Distribution.get_increment (d : Distribution) (r k : ℤ) :
    (Distribution.increment d r).get k =
      if r = k then
        some (match d.get r with
          | some x => x.add (.fin 1)
          | none => .nan)
      else d.get k := by
  induction d with
  | nil =>
    by_cases h : r = k <;> simp [Distribution.increment, Distribution.get, h]
  | cons e d ih =>
    obtain ⟨k', v⟩ := e
    by_cases h1 : k' = r
    · subst h1
      by_cases h2 : k' = k <;> simp [Distribution.increment, Distribution.get, h2]
    · by_cases h2 : r = k
      · subst h2
        simp [Distribution.increment, Distribution.get, h1, ih]
      · by_cases h3 : k' = k
        · subst h3
          simp [Distribution.increment, Distribution.get, h1, h2]
        · simp [Distribution.increment, Distribution.get, h1, h2, h3, ih]

theorem distribution_fold (k : ℤ) (rs : List ℤ) (d : Distribution) (c : ℕ)
    (hd : d.get k = some (.fin c)) (hb : c + rs.length < 2 ^ 53) :
    (rs.foldl Distribution.increment d).get k =
      some (.fin ((c + (rs.filter fun r => r = k).length : ℕ) : ℚ)) := by
  induction rs generalizing d c with
  | nil => simpa using hd
  | cons r rs ih =>
    rw [List.foldl_cons]
    simp only [List.length_cons] at hb
    by_cases h : r = k
    · have hstep : (Distribution.increment d r).get k = some (.fin ((c + 1 : ℕ) : ℚ)) := by
        rw [Distribution.get_increment, if_pos h, h, hd]
        simp only [JsNum.add]
        have : (c : ℚ) + 1 = ((c + 1 : ℕ) : ℚ) := by push_cast; ring
        rw [this, roundDouble_natCast _ (by omega)]
      rw [ih _ (c + 1) hstep (by omega)]
      simp [h, List.filter_cons]
      ring
    · have hstep : (Distribution.increment d r).get k = some (.fin (c : ℚ)) := by
        rw [Distribution.get_increment, if_neg h, hd]
      rw [ih _ c hstep (by omega)]
      simp [h, List.filter_cons]

theorem ratings_filter_length (fs : List FeedbackRecord) (k : ℤ) :
    ((fs.map fun f => f.rating).filter fun r => r = k).length =
      (fs.filter fun f => f.rating = k).length := by
  induction fs with
  | nil => rfl
  | cons f fs ih =>
    by_cases hf : f.rating = k <;> simp [List.filter_cons, hf] at ih ⊢ <;> exact ih

/-- C6: for every list of fewer than 2 ^ 32 records, each of the keys 1 to 5 of the
dashboard's ratingDistribution is present and holds the number of records of the list
with that rating. For the ratings 5, 5, 3 the distribution is 5 ↦ 2, 3 ↦ 1 and 0 for the
keys 1, 2, 4; for the empty list all five counts are 0. -/
theorem C6_rating_distribution (fs : List FeedbackRecord) (k : ℤ) :
    (fs.length < 2 ^ 32 → 1 ≤ k → k ≤ 5 →
      (fetchStats fs).ratingDistribution.get k =
        some (.fin ((fs.filter fun f => f.rating = k).length : ℚ))) ∧
    (fetchStats [rated 1 5, rated 2 5, rated 3 3]).ratingDistribution =
      [(1, .fin 0), (2, .fin 0), (3, .fin 1), (4, .fin 0), (5, .fin 2)] ∧
    (fetchStats []).ratingDistribution =
      [(1, .fin 0), (2, .fin 0), (3, .fin 0), (4, .fin 0), (5, .fin 0)] := by
  refine ⟨?_, by decide!, by decide⟩
  intro hlen h1 h5
  have hinit : Distribution.get
      [(1, .fin 0), (2, .fin 0), (3, .fin 0), (4, .fin 0), (5, .fin 0)] k =
      some (.fin ((0 : ℕ) : ℚ)) := by
    have hk : k = 1 ∨ k = 2 ∨ k = 3 ∨ k = 4 ∨ k = 5 := by omega
    rcases hk with rfl | rfl | rfl | rfl | rfl <;> simp [Distribution.get]
  have hfold := distribution_fold k (fs.map fun f => f.rating) _ 0 hinit
    (by simp only [List.length_map]; omega)
  simp only [fetchStats]
  rw [hfold]
  rw [ratings_filter_length]
  simp

/-- Witness for C6: the key 5 for the ratings 5, 5, 3. -/
theorem C6_rating_distribution_witness :
    (fetchStats [rated 1 5, rated 2 5, rated 3 3]).ratingDistribution.get 5 =
      some (.fin (([rated 1 5, rated 2 5, rated 3 3].filter fun f => f.rating = 5).length : ℚ)) :=
  (C6_rating_distribution [rated 1 5, rated 2 5, rated 3 3] 5).1 (by decide) (by decide)
    (by decide)

/-! ## Feedback list: filters and sort -/

theorem filterFeedbacks_eq (toLowerCase : String → String) (fs : List FeedbackRecord)
    (searchTerm selectedRating selectedCourse : String) :
    filterFeedbacks toLowerCase fs searchTerm selectedRating selectedCourse =
      fs.filter (passesFilters toLowerCase searchTerm selectedRating selectedCourse) := by
  unfold filterFeedbacks
  simp only [List.filter_filter]
  have hfun : ∀ (p q : FeedbackRecord → Bool), (∀ f, p f = q f) → fs.filter p = fs.filter q :=
    fun p q h => by rw [funext h]
  by_cases h1 : trim searchTerm = "" <;> by_cases h2 : selectedRating = "all" <;>
    by_cases h3 : selectedCourse = "all" <;>
    simp only [h1, h2, h3, ne_eq, not_true_eq_false, not_false_eq_true, if_true, if_false,
      List.filter_filter]
  · rw [← List.filter_true fs]
    simp only [List.filter_filter]
    apply hfun; intro f
    simp [passesFilters, ratingMatches, courseMatches, h1]
  all_goals
    apply hfun; intro f
    simp [passesFilters, ratingMatches, courseMatches, searchMatches, h1, h2, h3,
      Bool.and_comm, Bool.and_left_comm]

theorem arraySort_perm {α : Type} (cmp : α → α → ℤ) (l : List α) :
    (arraySort cmp l).Perm l :=
  List.perm_insertionSort _ l

theorem arraySort_sorted {α : Type} (cmp : α → α → ℤ) (key : α → ℤ)
    (h : ∀ a b, cmp a b ≤ 0 ↔ key a ≤ key b) (l : List α) :
    (arraySort cmp l).Sorted fun a b => key a ≤ key b := by
  have htotal : IsTotal α (fun a b => cmp a b ≤ 0) :=
    ⟨fun a b => by rw [h a b, h b a]; exact le_total _ _⟩
  have htrans : IsTrans α (fun a b => cmp a b ≤ 0) :=
    ⟨fun a b c hab hbc => by rw [h] at hab hbc ⊢; exact le_trans hab hbc⟩
  have hs := @List.sorted_insertionSort α (fun a b => cmp a b ≤ 0) _ htotal htrans l
  exact List.Pairwise.imp (fun {a b} hab => (h a b).mp hab) hs

theorem applyFilters_perm (toLowerCase : String → String) (fs : List FeedbackRecord)
    (searchTerm selectedRating selectedCourse sortBy : String) :
    (applyFilters toLowerCase fs searchTerm selectedRating selectedCourse sortBy).Perm
      (fs.filter (passesFilters toLowerCase searchTerm selectedRating selectedCourse)) := by
  unfold applyFilters
  rw [filterFeedbacks_eq]
  simp only
  split_ifs
  · exact arraySort_perm _ _
  · exact arraySort_perm _ _
  · exact arraySort_perm _ _
  · exact arraySort_perm _ _
  · exact List.Perm.refl _

theorem filter_congr_fun (fs : List FeedbackRecord) (p q : FeedbackRecord → Bool)
    (h : ∀ f, p f = q f) : fs.filter p = fs.filter q := by
  rw [funext h]

/-- C7, as stated, fails for a search term of white space only: with the term " " the
view keeps a record none of whose fields holds a space, of which the term is therefore
not a substring. -/
theorem C7_counterexample :
    applyFilters asciiLowerCase [recordNoSpace] " " "all" "all" "newest" = [recordNoSpace] ∧
    searchMatches asciiLowerCase " " recordNoSpace = false ∧ " " ≠ "" := by
  refine ⟨by decide, by decide, by decide⟩

/-- C7 (amended): with the rating and course filters set to "all", for every record
list, sort key and search term. When the term is not empty after trimming, the view
holds exactly the records in whose lower-cased student name, course code or comments
the lower-cased term occurs; when the term is empty or white space only, the view holds
every record. For the records A, B, C the search "math" yields exactly C. -/
theorem C7_search (toLowerCase : String → String) (fs : List FeedbackRecord)
    (searchTerm sortBy : String) :
    (trim searchTerm ≠ "" →
      (applyFilters toLowerCase fs searchTerm "all" "all" sortBy).Perm
        (fs.filter (searchMatches toLowerCase searchTerm))) ∧
    (trim searchTerm = "" →
      (applyFilters toLowerCase fs searchTerm "all" "all" sortBy).Perm fs) ∧
    applyFilters asciiLowerCase [recordA, recordB, recordC] "math" "all" "all" "newest" =
      [recordC] := by
  refine ⟨?_, ?_, by decide⟩
  · intro h
    have hp := applyFilters_perm toLowerCase fs searchTerm "all" "all" sortBy
    rwa [filter_congr_fun fs _ (searchMatches toLowerCase searchTerm)
      (fun f => by simp [passesFilters, ratingMatches, courseMatches, h])] at hp
  · intro h
    have hp := applyFilters_perm toLowerCase fs searchTerm "all" "all" sortBy
    rwa [filter_congr_fun fs _ (fun _ => true)
      (fun f => by simp [passesFilters, ratingMatches, courseMatches, h]),
      List.filter_true] at hp

/-- Witness for C7: the search "math" over the records A, B, C, and the empty search. -/
theorem C7_search_witness :
    (applyFilters asciiLowerCase [recordA, recordB, recordC] "math" "all" "all" "newest").Perm
        ([recordA, recordB, recordC].filter (searchMatches asciiLowerCase "math")) ∧
    (applyFilters asciiLowerCase [recordA, recordB, recordC] "" "all" "all" "newest").Perm
        [recordA, recordB, recordC] :=
  ⟨(C7_search asciiLowerCase [recordA, recordB, recordC] "math" "newest").1 (by decide),
    (C7_search asciiLowerCase [recordA, recordB, recordC] "" "newest").2.1 (by decide)⟩

/-- C8: for every record list and all filter settings, the view is a permutation of the
records that pass the filters, whatever the sort key; under "newest" it is ordered by
createdAt descending, under "oldest" by createdAt ascending, under "highest" by rating
descending and under "lowest" by rating ascending. Sorting the records A (rating 5),
B (rating 2), C (rating 4) by "highest" yields A, C, B. -/
theorem C8_sort (toLowerCase : String → String) (fs : List FeedbackRecord)
    (searchTerm selectedRating selectedCourse : String) :
    (∀ sortBy : String,
      (applyFilters toLowerCase fs searchTerm selectedRating selectedCourse sortBy).Perm
        (fs.filter (passesFilters toLowerCase searchTerm selectedRating selectedCourse))) ∧
    (applyFilters toLowerCase fs searchTerm selectedRating selectedCourse "newest").Sorted
      (fun a b => b.created_at ≤ a.created_at) ∧
    (applyFilters toLowerCase fs searchTerm selectedRating selectedCourse "oldest").Sorted
      (fun a b => a.created_at ≤ b.created_at) ∧
    (applyFilters toLowerCase fs searchTerm selectedRating selectedCourse "highest").Sorted
      (fun a b => b.rating ≤ a.rating) ∧
    (applyFilters toLowerCase fs searchTerm selectedRating selectedCourse "lowest").Sorted
      (fun a b => a.rating ≤ b.rating) ∧
    applyFilters asciiLowerCase [recordA, recordB, recordC] "" "all" "all" "highest" =
      [recordA, recordC, recordB] := by
  refine ⟨fun sortBy => applyFilters_perm _ _ _ _ _ _, ?_, ?_, ?_, ?_, by decide⟩
  · have h := arraySort_sorted (fun a b : FeedbackRecord => b.created_at - a.created_at)
      (fun a => -a.created_at) (fun a b => by dsimp only; constructor <;> intro h <;> omega)
      (filterFeedbacks toLowerCase fs searchTerm selectedRating selectedCourse)
    unfold applyFilters
    rw [if_pos rfl]
    exact List.Pairwise.imp (fun {a b} hab => by omega) h
  · have h := arraySort_sorted (fun a b : FeedbackRecord => a.created_at - b.created_at)
      (fun a => a.created_at) (fun a b => by dsimp only; constructor <;> intro h <;> omega)
      (filterFeedbacks toLowerCase fs searchTerm selectedRating selectedCourse)
    unfold applyFilters
    rw [if_neg (by decide), if_pos rfl]
    exact h
  · have h := arraySort_sorted (fun a b : FeedbackRecord => b.rating - a.rating)
      (fun a => -a.rating) (fun a b => by dsimp only; constructor <;> intro h <;> omega)
      (filterFeedbacks toLowerCase fs searchTerm selectedRating selectedCourse)
    unfold applyFilters
    rw [if_neg (by decide), if_neg (by decide), if_pos rfl]
    exact List.Pairwise.imp (fun {a b} hab => by omega) h
  · have h := arraySort_sorted (fun a b : FeedbackRecord => a.rating - b.rating)
      (fun a => a.rating) (fun a b => by dsimp only; constructor <;> intro h <;> omega)
      (filterFeedbacks toLowerCase fs searchTerm selectedRating selectedCourse)
    unfold applyFilters
    rw [if_neg (by decide), if_neg (by decide), if_neg (by decide), if_pos rfl]
    exact h

theorem ratingMatches_option (k : ℤ) (s : String) (hs : s ≠ "all")
    (hp : parseInt s = .fin k) (f : FeedbackRecord) :
    ratingMatches s f = true ↔ f.rating = k := by
  simp [ratingMatches, hs, hp, JsNum.ofInt, JsNum.strictEq]

/-- C9: for every record list and sort key, with an empty search term, the view holds
exactly the records that pass the rating filter and the course filter. A record passes
the rating filter when the selection is "all" or its rating is the number the selection
reads as (for the options "1" to "5", the ratings 1 to 5); it passes the course filter
when the selection is "all" or equals its course code. Filtering the records A (CS101),
B (CS101), C (MATH201) by the course "CS101" yields exactly A and B. -/
theorem C9_rating_course_filter (toLowerCase : String → String) (fs : List FeedbackRecord)
    (selectedRating selectedCourse sortBy : String) :
    (applyFilters toLowerCase fs "" selectedRating selectedCourse sortBy).Perm
      (fs.filter fun f => ratingMatches selectedRating f && courseMatches selectedCourse f) ∧
    (∀ f : FeedbackRecord, ratingMatches "all" f = true ∧
      (ratingMatches "1" f = true ↔ f.rating = 1) ∧
      (ratingMatches "2" f = true ↔ f.rating = 2) ∧
      (ratingMatches "3" f = true ↔ f.rating = 3) ∧
      (ratingMatches "4" f = true ↔ f.rating = 4) ∧
      (ratingMatches "5" f = true ↔ f.rating = 5)) ∧
    (∀ f : FeedbackRecord, courseMatches "all" f = true ∧
      (selectedCourse ≠ "all" →
        (courseMatches selectedCourse f = true ↔ f.course_code = selectedCourse))) ∧
    applyFilters asciiLowerCase [recordA, recordB, recordC] "" "all" "CS101" "newest" =
      [recordA, recordB] := by
  refine ⟨?_, ?_, ?_, by decide⟩
  · have hp := applyFilters_perm toLowerCase fs "" selectedRating selectedCourse sortBy
    have ht : trim "" = "" := by decide
    rwa [filter_congr_fun fs _
      (fun f => ratingMatches selectedRating f && courseMatches selectedCourse f)
      (fun f => by simp [passesFilters, ht])] at hp
  · intro f
    refine ⟨by simp [ratingMatches], ?_, ?_, ?_, ?_, ?_⟩
    · exact ratingMatches_option 1 "1" (by decide) (by decide!) f
    · exact ratingMatches_option 2 "2" (by decide) (by decide!) f
    · exact ratingMatches_option 3 "3" (by decide) (by decide!) f
    · exact ratingMatches_option 4 "4" (by decide) (by decide!) f
    · exact ratingMatches_option 5 "5" (by decide) (by decide!) f
  · intro f
    refine ⟨by simp [courseMatches], fun h => by simp [courseMatches, h]⟩

/-! ## Feedback form: validation -/

theorem FormErrors.keys_length_eq_zero (e : FormErrors) :
    e.keys.length = 0 ↔ e = noErrors := by
  rcases e with ⟨_ | _, _ | _, _ | _, _ | _⟩ <;> simp [FormErrors.keys, noErrors]

theorem handleSubmit_post_iff (formData : FormData) :
    handleSubmit formData = .post "/api/feedback" formData ↔ validate formData = noErrors := by
  unfold handleSubmit
  simp only
  by_cases h : (validate formData).keys.length > 0
  · rw [if_pos h]
    constructor
    · intro h'; cases h'
    · intro h'
      rw [← FormErrors.keys_length_eq_zero] at h'
      omega
  · rw [if_neg h]
    constructor
    · intro _
      rw [← FormErrors.keys_length_eq_zero]
      omega
    · intro _; rfl

theorem jsLength_empty : jsLength "" = 0 := by decide

/-- The condition under which `validate` returns no errors, for any form data. -/
theorem validate_eq_noErrors_iff (formData : FormData) :
    validate formData = noErrors ↔
      trim formData.studentName ≠ "" ∧ trim formData.courseCode ≠ "" ∧
        10 ≤ jsLength (trim formData.comments) ∧ formData.rating ≠ "" ∧
        (stringToNumber formData.rating).lt (.fin 1) = false ∧
        (JsNum.fin 5).lt (stringToNumber formData.rating) = false := by
  unfold validate noErrors
  simp only [FormErrors.mk.injEq]
  constructor
  · rintro ⟨h1, h2, h3, h4⟩
    have c1 : trim formData.studentName ≠ "" := by
      intro h; rw [if_pos h] at h1; cases h1
    have c2 : trim formData.courseCode ≠ "" := by
      intro h; rw [if_pos h] at h2; cases h2
    have c3 : trim formData.comments ≠ "" := by
      intro h; rw [if_pos h] at h3; cases h3
    rw [if_neg c3] at h3
    have c3' : ¬ jsLength (trim formData.comments) < 10 := by
      intro h; rw [if_pos h] at h3; cases h3
    have c4 : formData.rating ≠ "" := by
      intro h; rw [if_pos h] at h4; cases h4
    rw [if_neg c4] at h4
    have c5 : ¬ ((stringToNumber formData.rating).lt (.fin 1) ||
        (JsNum.fin 5).lt (stringToNumber formData.rating)) = true := by
      intro h; rw [if_pos h] at h4; cases h4
    simp only [Bool.or_eq_true, not_or, Bool.not_eq_true] at c5
    exact ⟨c1, c2, by omega, c4, c5.1, c5.2⟩
  · rintro ⟨c1, c2, c3, c4, c5, c6⟩
    have c3' : trim formData.comments ≠ "" := by
      intro h; rw [h, jsLength_empty] at c3; omega
    refine ⟨if_neg c1, if_neg c2, ?_, ?_⟩
    · rw [if_neg c3', if_neg (by omega)]
    · rw [if_neg c4, if_neg (by simp [c5, c6])]

theorem within1to5_of_number (r : String) (q : ℚ) (h : stringToNumber r = .fin q)
    (h1 : 1 ≤ q) (h5 : q ≤ 5) :
    (JsVal.str r).within1to5 ∧ (stringToNumber r).lt (.fin 1) = false ∧
      (JsNum.fin 5).lt (stringToNumber r) = false := by
  refine ⟨⟨q, congrArg Except.ok h, h1, h5⟩, ?_, ?_⟩
  · rw [h]; simp [JsNum.lt, h1]
  · rw [h]; simp [JsNum.lt, h5]

/-- The rating check of `validate` on the values the form can hold: it passes exactly
when the rating is present and within 1–5. -/
theorem formRating_check (r : String) (hr : r ∈ formRatingValues) :
    (r ≠ "" ∧ (stringToNumber r).lt (.fin 1) = false ∧
        (JsNum.fin 5).lt (stringToNumber r) = false) ↔
      (r ≠ "" ∧ (JsVal.str r).within1to5) := by
  simp only [formRatingValues, List.mem_cons, List.mem_singleton, List.mem_nil_iff,
    or_false] at hr
  rcases hr with h | h | h | h | h | h
  · subst h; simp
  · subst h
    obtain ⟨w, l1, l5⟩ := within1to5_of_number "1" 1 (by decide!) (by norm_num) (by norm_num)
    exact ⟨fun _ => ⟨by decide, w⟩, fun _ => ⟨by decide, l1, l5⟩⟩
  · subst h
    obtain ⟨w, l1, l5⟩ := within1to5_of_number "2" 2 (by decide!) (by norm_num) (by norm_num)
    exact ⟨fun _ => ⟨by decide, w⟩, fun _ => ⟨by decide, l1, l5⟩⟩
  · subst h
    obtain ⟨w, l1, l5⟩ := within1to5_of_number "3" 3 (by decide!) (by norm_num) (by norm_num)
    exact ⟨fun _ => ⟨by decide, w⟩, fun _ => ⟨by decide, l1, l5⟩⟩
  · subst h
    obtain ⟨w, l1, l5⟩ := within1to5_of_number "4" 4 (by decide!) (by norm_num) (by norm_num)
    exact ⟨fun _ => ⟨by decide, w⟩, fun _ => ⟨by decide, l1, l5⟩⟩
  · subst h
    obtain ⟨w, l1, l5⟩ := within1to5_of_number "5" 5 (by decide!) (by norm_num) (by norm_num)
    exact ⟨fun _ => ⟨by decide, w⟩, fun _ => ⟨by decide, l1, l5⟩⟩

/-- C10: for every state of the form, whose rating is the empty string or one of the
radio values "1" to "5", `validate` returns no errors exactly when the student name and
the course code are non-empty after trimming, the comments have a length of at least 10
after trimming, and the rating is present and within 1–5. `handleSubmit` sends the POST
request exactly when `validate` returns no errors. Comments of trimmed length 10 get no
error; comments of trimmed length 9 get the error "Comments must be at least 10
characters", and `handleSubmit` then stores the errors and sends nothing. -/
theorem C10_validate (formData : FormData) (hr : formData.rating ∈ formRatingValues) :
    (validate formData = noErrors ↔
      trim formData.studentName ≠ "" ∧ trim formData.courseCode ≠ "" ∧
        10 ≤ jsLength (trim formData.comments) ∧ formData.rating ≠ "" ∧
        (JsVal.str formData.rating).within1to5) ∧
    (handleSubmit formData = .post "/api/feedback" formData ↔ validate formData = noErrors) ∧
    (jsLength (trim formData.comments) = 10 → (validate formData).comments = none) ∧
    (jsLength (trim formData.comments) = 9 →
      (validate formData).comments = some "Comments must be at least 10 characters" ∧
        handleSubmit formData = .showErrors (validate formData)) := by
  refine ⟨?_, handleSubmit_post_iff formData, ?_, ?_⟩
  · rw [validate_eq_noErrors_iff]
    have hc := formRating_check formData.rating hr
    constructor
    · rintro ⟨c1, c2, c3, c4, c5, c6⟩
      exact ⟨c1, c2, c3, hc.mp ⟨c4, c5, c6⟩⟩
    · rintro ⟨c1, c2, c3, c4, c5⟩
      obtain ⟨d4, d5, d6⟩ := hc.mpr ⟨c4, c5⟩
      exact ⟨c1, c2, c3, d4, d5, d6⟩
  · intro h
    have c : trim formData.comments ≠ "" := by
      intro h'; rw [h', jsLength_empty] at h; omega
    simp only [validate]
    rw [if_neg c, if_neg (by omega)]
  · intro h
    have c : trim formData.comments ≠ "" := by
      intro h'; rw [h', jsLength_empty] at h; omega
    have hc : (validate formData).comments = some "Comments must be at least 10 characters" := by
      simp only [validate]
      rw [if_neg c, if_pos (by omega)]
    refine ⟨hc, ?_⟩
    unfold handleSubmit
    simp only
    rw [if_pos]
    have hk : (validate formData).keys.length ≠ 0 := by
      intro h0
      rw [FormErrors.keys_length_eq_zero] at h0
      rw [h0] at hc
      cases hc
    omega

/-- Witness for C10: the radio value "3" with comments of exactly ten and of exactly
nine characters. -/
theorem C10_validate_witness :
    (validate ⟨"Ada", "CS101", "1234567890", "3"⟩ = noErrors ↔
      trim "Ada" ≠ "" ∧ trim "CS101" ≠ "" ∧ 10 ≤ jsLength (trim "1234567890") ∧
        "3" ≠ "" ∧ (JsVal.str "3").within1to5) ∧
    (validate ⟨"Ada", "CS101", "1234567890", "3"⟩).comments = none ∧
    ((validate ⟨"Ada", "CS101", " 123456789 ", "3"⟩).comments =
        some "Comments must be at least 10 characters" ∧
      handleSubmit ⟨"Ada", "CS101", " 123456789 ", "3"⟩ =
        .showErrors (validate ⟨"Ada", "CS101", " 123456789 ", "3"⟩)) :=
  ⟨(C10_validate ⟨"Ada", "CS101", "1234567890", "3"⟩ (by decide)).1,
    (C10_validate ⟨"Ada", "CS101", "1234567890", "3"⟩ (by decide)).2.2.1 (by decide),
    (C10_validate ⟨"Ada", "CS101", " 123456789 ", "3"⟩ (by decide)).2.2.2 (by decide)⟩

/-! ## The form against the service -/

theorem trim_empty : trim "" = "" := by decide

/-- What a form without validation errors holds. -/
theorem validate_noErrors (formData : FormData) (h : validate formData = noErrors) :
    formData.studentName ≠ "" ∧ formData.courseCode ≠ "" ∧ formData.comments ≠ "" ∧
      formData.rating ≠ "" ∧
      (stringToNumber formData.rating).lt (.fin 1) = false ∧
      (JsNum.fin 5).lt (stringToNumber formData.rating) = false := by
  unfold validate noErrors at h
  simp only [FormErrors.mk.injEq] at h
  obtain ⟨h1, h2, h3, h4⟩ := h
  have c1 : formData.studentName ≠ "" := by
    intro h; rw [h, trim_empty, if_pos rfl] at h1; cases h1
  have c2 : formData.courseCode ≠ "" := by
    intro h; rw [h, trim_empty, if_pos rfl] at h2; cases h2
  have c3 : formData.comments ≠ "" := by
    intro h; rw [h, trim_empty, if_pos rfl] at h3; cases h3
  have c4 : formData.rating ≠ "" := by
    intro h; rw [if_pos h] at h4; cases h4
  rw [if_neg c4] at h4
  have c5 : ¬ ((stringToNumber formData.rating).lt (.fin 1) ||
      (JsNum.fin 5).lt (stringToNumber formData.rating)) = true := by
    intro h; rw [if_pos h] at h4; cases h4
  simp only [Bool.or_eq_true, not_or, Bool.not_eq_true] at c5
  exact ⟨c1, c2, c3, c4, c5.1, c5.2⟩

/-- C13: when `validate` returns no errors for the form data, the create handler, given
the same four strings as body, finds all four fields truthy and the rating neither below
1 nor above 5; it therefore goes on to run the INSERT, and its response has status 201
or 500 according to the outcome of that statement, never 400. This holds for every pool
and store state. -/
theorem C13_form_valid_passes_service {σ : Type} (pool : Pool σ) (formData : FormData)
    (s : σ) (h : validate formData = noErrors) :
    ((postedBody formData).studentName.truthy = true ∧
      (postedBody formData).courseCode.truthy = true ∧
      (postedBody formData).comments.truthy = true ∧
      (postedBody formData).rating.truthy = true) ∧
    ((postedBody formData).rating.ltNum 1 = .ok false ∧
      (postedBody formData).rating.gtNum 5 = .ok false) ∧
    router_post pool (postedBody formData) s = insertFeedback pool (postedBody formData) s ∧
    ((router_post pool (postedBody formData) s).1.status = 201 ∨
      (router_post pool (postedBody formData) s).1.status = 500) ∧
    (router_post pool (postedBody formData) s).1.status ≠ 400 := by
  obtain ⟨c1, c2, c3, c4, c5, c6⟩ := validate_noErrors formData h
  have t1 : (postedBody formData).studentName.truthy = true := by
    simp [postedBody, JsVal.truthy, c1]
  have t2 : (postedBody formData).courseCode.truthy = true := by
    simp [postedBody, JsVal.truthy, c2]
  have t3 : (postedBody formData).comments.truthy = true := by
    simp [postedBody, JsVal.truthy, c3]
  have t4 : (postedBody formData).rating.truthy = true := by
    simp [postedBody, JsVal.truthy, c4]
  have hx : (postedBody formData).rating.toNumber = .ok (stringToNumber formData.rating) := rfl
  have hr := router_post_truthy pool (postedBody formData) s _ t1 t2 t3 t4 hx
  rw [if_neg (by simp [c5, c6])] at hr
  have hst : (insertFeedback pool (postedBody formData) s).1.status = 201 ∨
      (insertFeedback pool (postedBody formData) s).1.status = 500 := by
    unfold insertFeedback
    split
    · exact Or.inl rfl
    · exact Or.inr rfl
  refine ⟨⟨t1, t2, t3, t4⟩, ⟨?_, ?_⟩, hr, ?_, ?_⟩
  · simp only [JsVal.ltNum, hx, c5]
  · simp only [JsVal.gtNum, hx, c6]
  · rw [hr]; exact hst
  · rw [hr]; rcases hst with h' | h' <;> rw [h'] <;> decide

/-- Witness for C13: a valid form posted against an empty table. -/
theorem C13_form_valid_passes_service_witness :
    (router_post tablePool (postedBody ⟨"Ada", "CS101", "1234567890", "3"⟩)
      ⟨[], 1, 0⟩).1.status ≠ 400 :=
  (C13_form_valid_passes_service tablePool ⟨"Ada", "CS101", "1234567890", "3"⟩ ⟨[], 1, 0⟩
    (by decide!)).2.2.2.2

/-! ## Course options: order of strings -/

theorem unitsLt_irrefl (a : List ℕ) : unitsLt a a = false := by
  induction a with
  | nil => rfl
  | cons x xs ih => simp [unitsLt, ih]

theorem unitsLt_trans (a b c : List ℕ) (hab : unitsLt a b = true) (hbc : unitsLt b c = true) :
    unitsLt a c = true := by
  induction a generalizing b c with
  | nil =>
    cases b with
    | nil => simp [unitsLt] at hab
    | cons y ys =>
      cases c with
      | nil => simp [unitsLt] at hbc
      | cons z zs => simp [unitsLt]
  | cons x xs ih =>
    cases b with
    | nil => simp [unitsLt] at hab
    | cons y ys =>
      cases c with
      | nil => simp [unitsLt] at hbc
      | cons z zs =>
        simp only [unitsLt, Bool.or_eq_true, Bool.and_eq_true, decide_eq_true_eq] at hab hbc ⊢
        rcases hab with h1 | ⟨h1, h1'⟩ <;> rcases hbc with h2 | ⟨h2, h2'⟩
        · exact Or.inl (by omega)
        · exact Or.inl (by omega)
        · exact Or.inl (by omega)
        · exact Or.inr ⟨by omega, ih ys zs h1' h2'⟩

theorem unitsLt_asymm (a b : List ℕ) (hab : unitsLt a b = true) : unitsLt b a = false := by
  cases h : unitsLt b a with
  | false => rfl
  | true =>
    have := unitsLt_trans a b a hab h
    rw [unitsLt_irrefl] at this
    cases this

theorem unitsLt_trichotomy (a b : List ℕ) :
    unitsLt a b = true ∨ a = b ∨ unitsLt b a = true := by
  induction a generalizing b with
  | nil =>
    cases b with
    | nil => exact Or.inr (Or.inl rfl)
    | cons y ys => exact Or.inl rfl
  | cons x xs ih =>
    cases b with
    | nil => exact Or.inr (Or.inr rfl)
    | cons y ys =>
      simp only [unitsLt, Bool.or_eq_true, Bool.and_eq_true, decide_eq_true_eq,
        List.cons.injEq]
      rcases Nat.lt_trichotomy x y with h | h | h
      · exact Or.inl (Or.inl h)
      · rcases ih ys with h' | h' | h'
        · exact Or.inl (Or.inr ⟨h, h'⟩)
        · exact Or.inr (Or.inl ⟨h, h'⟩)
        · exact Or.inr (Or.inr (Or.inr ⟨h.symm, h'⟩))
      · exact Or.inr (Or.inr (Or.inl h))

theorem char_toNat_valid (c : Char) :
    c.toNat < 0xD800 ∨ (0xDFFF < c.toNat ∧ c.toNat < 0x110000) := c.valid

theorem char_toNat_inj (c d : Char) (h : c.toNat = d.toNat) : c = d := by
  apply Char.ext
  apply UInt32.ext
  exact h

theorem charUnits_append_inj (c d : Char) (r t : List ℕ)
    (h : charUnits c ++ r = charUnits d ++ t) : c = d ∧ r = t := by
  have hc := char_toNat_valid c
  have hd := char_toNat_valid d
  unfold charUnits at h
  split_ifs at h with h1 h2 h2
  · simp only [List.singleton_append, List.cons.injEq] at h
    exact ⟨char_toNat_inj c d h.1, h.2⟩
  · simp only [List.singleton_append, List.cons_append, List.nil_append,
      List.cons.injEq] at h
    omega
  · simp only [List.singleton_append, List.cons_append, List.nil_append,
      List.cons.injEq] at h
    omega
  · simp only [List.cons_append, List.nil_append, List.cons.injEq] at h
    exact ⟨char_toNat_inj c d (by omega), h.2.2⟩

theorem charUnits_ne_nil (c : Char) : charUnits c ≠ [] := by
  unfold charUnits
  split_ifs <;> simp

theorem utf16Units_inj (a b : String) (h : utf16Units a = utf16Units b) : a = b := by
  have key : ∀ l m : List Char, l.flatMap charUnits = m.flatMap charUnits → l = m := by
    intro l
    induction l with
    | nil =>
      intro m hm
      cases m with
      | nil => rfl
      | cons d m =>
        simp only [List.flatMap_nil, List.flatMap_cons] at hm
        have := charUnits_ne_nil d
        cases hd : charUnits d with
        | nil => exact absurd hd this
        | cons u us => rw [hd] at hm; cases hm
    | cons c l ih =>
      intro m hm
      cases m with
      | nil =>
        simp only [List.flatMap_nil, List.flatMap_cons] at hm
        have := charUnits_ne_nil c
        cases hc : charUnits c with
        | nil => exact absurd hc this
        | cons u us => rw [hc] at hm; cases hm
      | cons d m =>
        simp only [List.flatMap_cons] at hm
        obtain ⟨h1, h2⟩ := charUnits_append_inj c d _ _ hm
        rw [h1, ih m h2]
  have := key a.data b.data h
  exact String.ext this

theorem sortCompare_nonpos (a b : String) : sortCompare a b ≤ 0 ↔ stringLt b a = false := by
  unfold sortCompare
  by_cases h1 : stringLt a b = true
  · rw [if_pos h1]
    have := unitsLt_asymm _ _ h1
    simp [stringLt] at this ⊢
    exact this
  · rw [if_neg h1]
    by_cases h2 : stringLt b a = true
    · rw [if_pos h2]; simp [h2]
    · rw [if_neg h2]; simpa using h2

theorem arraySort_sortCompare_sorted (l : List String) :
    (arraySort sortCompare l).Sorted fun a b => stringLt b a = false := by
  have htotal : IsTotal String (fun a b => sortCompare a b ≤ 0) :=
    ⟨fun a b => by
      rw [sortCompare_nonpos, sortCompare_nonpos]
      cases h : stringLt b a with
      | false => exact Or.inl rfl
      | true => exact Or.inr (unitsLt_asymm _ _ h)⟩
  have htrans : IsTrans String (fun a b => sortCompare a b ≤ 0) :=
    ⟨fun a b c hab hbc => by
      rw [sortCompare_nonpos] at hab hbc ⊢
      cases h : stringLt c a with
      | false => rfl
      | true =>
        exfalso
        rcases unitsLt_trichotomy (utf16Units a) (utf16Units b) with h1 | h1 | h1
        · have := unitsLt_trans _ _ _ h h1
          simp [stringLt] at hbc
          rw [this] at hbc; cases hbc
        · simp only [stringLt] at hbc h
          rw [← h1, h] at hbc; cases hbc
        · simp only [stringLt] at hab
          rw [h1] at hab; cases hab⟩
  have hs := @List.sorted_insertionSort String (fun a b => sortCompare a b ≤ 0) _ htotal
    htrans l
  exact List.Pairwise.imp (fun {a b} hab => (sortCompare_nonpos a b).mp hab) hs

theorem setValues_fold (xs acc : List String) (hacc : acc.Nodup) :
    (xs.foldl (fun acc x => if x ∈ acc then acc else acc ++ [x]) acc).Nodup ∧
      ∀ c, c ∈ xs.foldl (fun acc x => if x ∈ acc then acc else acc ++ [x]) acc ↔
        c ∈ acc ∨ c ∈ xs := by
  induction xs generalizing acc with
  | nil => exact ⟨hacc, fun c => by simp⟩
  | cons x xs ih =>
    rw [List.foldl_cons]
    by_cases hx : x ∈ acc
    · rw [if_pos hx]
      obtain ⟨h1, h2⟩ := ih acc hacc
      refine ⟨h1, fun c => ?_⟩
      rw [h2 c, List.mem_cons]
      constructor
      · rintro (h | h)
        · exact Or.inl h
        · exact Or.inr (Or.inr h)
      · rintro (h | h | h)
        · exact Or.inl h
        · exact Or.inl (h ▸ hx)
        · exact Or.inr h
    · rw [if_neg hx]
      have hnd : (acc ++ [x]).Nodup := by
        rw [List.nodup_append]
        refine ⟨hacc, List.nodup_singleton x, ?_⟩
        intro a ha hb
        rw [List.mem_singleton] at hb
        exact hx (hb ▸ ha)
      obtain ⟨h1, h2⟩ := ih (acc ++ [x]) hnd
      refine ⟨h1, fun c => ?_⟩
      rw [h2 c, List.mem_append, List.mem_singleton, List.mem_cons]
      constructor
      · rintro ((h | h) | h)
        · exact Or.inl h
        · exact Or.inr (Or.inl h)
        · exact Or.inr (Or.inr h)
      · rintro (h | h | h)
        · exact Or.inl (Or.inl h)
        · exact Or.inl (Or.inr h)
        · exact Or.inr h

theorem setValues_nodup (xs : List String) : (setValues xs).Nodup :=
  (setValues_fold xs [] List.nodup_nil).1

theorem mem_setValues (xs : List String) (c : String) : c ∈ setValues xs ↔ c ∈ xs := by
  have := (setValues_fold xs [] List.nodup_nil).2 c
  simpa [setValues] using this

theorem getUniqueCourses_perm (st : ListState) :
    (getUniqueCourses st).Perm (setValues (st.feedbacks.map fun f => f.course_code)) :=
  arraySort_perm _ _

/-- C11: for every state of the feedback list, the course options hold each course code
of the full record list exactly once and nothing else, in strictly ascending order of
their UTF-16 code units; they are the same for any two states with the same full list,
whatever the search term, the filters, the sort key and the filtered view. -/
theorem C11_unique_courses (st : ListState) :
    (∀ f ∈ st.feedbacks, (getUniqueCourses st).count f.course_code = 1) ∧
    (∀ c ∈ getUniqueCourses st, ∃ f ∈ st.feedbacks, f.course_code = c) ∧
    (getUniqueCourses st).Sorted (fun a b => stringLt a b = true) ∧
    (∀ st' : ListState, st'.feedbacks = st.feedbacks →
      getUniqueCourses st' = getUniqueCourses st) ∧
    getUniqueCourses ⟨[recordC, recordA, recordB], [recordC], "math", "4", "MATH201",
      "lowest"⟩ = ["CS101", "MATH201"] := by
  have hperm := getUniqueCourses_perm st
  have hnd : (getUniqueCourses st).Nodup := hperm.nodup_iff.mpr (setValues_nodup _)
  have hmem : ∀ c, c ∈ getUniqueCourses st ↔ ∃ f ∈ st.feedbacks, f.course_code = c := by
    intro c
    rw [hperm.mem_iff, mem_setValues, List.mem_map]
  refine ⟨?_, ?_, ?_, ?_, by decide⟩
  · intro f hf
    exact List.count_eq_one_of_mem hnd ((hmem _).mpr ⟨f, hf, rfl⟩)
  · intro c hc
    exact (hmem c).mp hc
  · have hs : (getUniqueCourses st).Sorted fun a b => stringLt b a = false :=
      arraySort_sortCompare_sorted _
    have hne : (getUniqueCourses st).Pairwise fun a b => a ≠ b := hnd
    refine List.Pairwise.imp ?_ (List.Pairwise.and hs hne)
    rintro a b ⟨hle, hab⟩
    rcases unitsLt_trichotomy (utf16Units a) (utf16Units b) with h | h | h
    · exact h
    · exact absurd (utf16Units_inj a b h) hab
    · simp only [stringLt] at hle
      rw [h] at hle; cases hle
  · intro st' h
    simp only [getUniqueCourses, h]

/-! ## Dashboard: the highest rating -/

theorem Distribution.mem_of_get (d : Distribution) (k : ℤ) (v : JsNum)
    (h : d.get k = some v) : (k, v) ∈ d := by
  induction d with
  | nil => simp [Distribution.get] at h
  | cons e d ih =>
    obtain ⟨k', v'⟩ := e
    by_cases hk : k' = k
    · simp only [Distribution.get, hk, if_true, Option.some.injEq] at h
      rw [hk, h]; exact List.mem_cons_self _ _
    · simp only [Distribution.get, hk, if_false] at h
      exact List.mem_cons_of_mem _ (ih h)

theorem Distribution.get_of_mem (d : Distribution) (k : ℤ) (v : JsNum)
    (hnd : d.keys.Nodup) (h : (k, v) ∈ d) : d.get k = some v := by
  induction d with
  | nil => cases h
  | cons e d ih =>
    obtain ⟨k', v'⟩ := e
    simp only [Distribution.keys, List.map_cons, List.nodup_cons] at hnd
    rcases List.mem_cons.mp h with h | h
    · injection h with h1 h2
      simp [Distribution.get, h1, h2]
    · have hne : k' ≠ k := by
        intro heq
        apply hnd.1
        rw [heq]
        exact List.mem_map.mpr ⟨(k, v), h, rfl⟩
      simp only [Distribution.get, hne, if_false]
      exact ih hnd.2 h

theorem jsMax_ofInt (a b : ℤ) :
    JsNum.max (.ofInt a) (.ofInt b) = .ofInt (max a b) := by
  simp only [JsNum.max, JsNum.ofInt, JsNum.lt]
  by_cases h : a < b
  · have : (a : ℚ) < b := by exact_mod_cast h
    simp [this, max_eq_right h.le]
  · have : ¬ (a : ℚ) < b := by exact_mod_cast h
    simp [this, max_eq_left (not_lt.mp h)]

theorem foldl_max_ofInt (l : List ℤ) (m : ℤ) :
    (l.map JsNum.ofInt).foldl JsNum.max (.ofInt m) = .ofInt (l.foldl max m) := by
  induction l generalizing m with
  | nil => rfl
  | cons k l ih => simp only [List.map_cons, List.foldl_cons, jsMax_ofInt, ih]

theorem foldl_max_spec (l : List ℤ) (m : ℤ) :
    (l.foldl max m = m ∨ l.foldl max m ∈ l) ∧ m ≤ l.foldl max m ∧
      ∀ k ∈ l, k ≤ l.foldl max m := by
  induction l generalizing m with
  | nil => simp
  | cons x l ih =>
    obtain ⟨h1, h2, h3⟩ := ih (max m x)
    simp only [List.foldl_cons, List.mem_cons]
    refine ⟨?_, le_trans (le_max_left m x) h2, ?_⟩
    · rcases h1 with h | h
      · rcases max_choice m x with hm | hm
        · exact Or.inl (by rw [h, hm])
        · exact Or.inr (Or.inl (by rw [h, hm]))
      · exact Or.inr (Or.inr h)
    · intro k hk
      rcases hk with rfl | hk
      · exact le_trans (le_max_right m k) h2
      · exact h3 k hk

theorem mathMax_ofInt (l : List ℤ) (hl : l ≠ []) :
    ∃ m ∈ l, mathMax (l.map JsNum.ofInt) = .fin m ∧ ∀ k ∈ l, k ≤ m := by
  cases l with
  | nil => exact absurd rfl hl
  | cons x l =>
    have hstart : JsNum.max (.inf true) (.ofInt x) = .ofInt x := by
      simp [JsNum.max, JsNum.ofInt, JsNum.lt]
    obtain ⟨h1, h2, h3⟩ := foldl_max_spec l x
    refine ⟨l.foldl max x, ?_, ?_, ?_⟩
    · rcases h1 with h | h
      · rw [h]; exact List.mem_cons_self _ _
      · exact List.mem_cons_of_mem _ h
    · simp only [mathMax, List.map_cons, List.foldl_cons, hstart, foldl_max_ofInt]
      rfl
    · intro k hk
      rcases List.mem_cons.mp hk with rfl | hk
      · exact h2
      · exact h3 k hk

theorem JsNum.isCount_iff (v : JsNum) : v.isCount = true ↔ ∃ n : ℕ, v = .fin n := by
  constructor
  · intro h
    cases v with
    | nan => simp [JsNum.isCount] at h
    | inf s => simp [JsNum.isCount] at h
    | fin q =>
      simp only [JsNum.isCount, Bool.and_eq_true, decide_eq_true_eq] at h
      obtain ⟨n, hn⟩ := Int.eq_ofNat_of_zero_le h.2
      refine ⟨n, ?_⟩
      have hq : (q.num : ℚ) = q := Rat.coe_int_num_of_den_eq_one h.1
      rw [← hq, hn]
      simp
  · rintro ⟨n, rfl⟩
    simp [JsNum.isCount]

/-- The keys that `getHighestRating` keeps, for a well-formed distribution: those with
a non-zero count. -/
theorem mem_positive_keys (d : Distribution) (hd : d.WellFormed) (k : ℤ) :
    k ∈ (d.keys.filter fun k =>
      match d.get k with
      | some v => (JsNum.fin 0).lt v
      | none => false) ↔ ∃ v, (k, v) ∈ d ∧ v ≠ .fin 0 := by
  rw [List.mem_filter]
  constructor
  · rintro ⟨hk, hpos⟩
    cases hg : d.get k with
    | none => rw [hg] at hpos; cases hpos
    | some v =>
      refine ⟨v, Distribution.mem_of_get d k v hg, ?_⟩
      rw [hg] at hpos
      intro hv
      rw [hv] at hpos
      simp [JsNum.lt] at hpos
  · rintro ⟨v, hmem, hv⟩
    refine ⟨List.mem_map.mpr ⟨(k, v), hmem, rfl⟩, ?_⟩
    rw [Distribution.get_of_mem d k v hd.1 hmem]
    obtain ⟨n, hn⟩ := (JsNum.isCount_iff v).mp (hd.2 (k, v) hmem)
    rw [hn] at hv ⊢
    have hn0 : n ≠ 0 := by
      intro h0; apply hv; rw [h0]; simp
    have : (0 : ℚ) < n := by exact_mod_cast Nat.pos_of_ne_zero hn0
    simp [JsNum.lt, this]

theorem getHighestRating_spec (d : Distribution) (hd : d.WellFormed) :
    ((∀ e ∈ d, e.2 = .fin 0) → getHighestRating d = .str "N/A") ∧
    ((∃ e ∈ d, e.2 ≠ .fin 0) →
      ∃ m : ℤ, getHighestRating d = .num (.fin m) ∧ (∃ v, (m, v) ∈ d ∧ v ≠ .fin 0) ∧
        ∀ k v, (k, v) ∈ d → v ≠ .fin 0 → k ≤ m) := by
  have hmem := mem_positive_keys d hd
  constructor
  · intro hall
    have hnil : (d.keys.filter fun k =>
        match d.get k with
        | some v => (JsNum.fin 0).lt v
        | none => false) = [] := by
      rw [List.eq_nil_iff_forall_not_mem]
      intro k hk
      obtain ⟨v, hv, hne⟩ := (hmem k).mp hk
      exact hne (hall (k, v) hv)
    simp only [getHighestRating, hnil, List.map_nil, List.length_nil, if_true]
  · rintro ⟨e, he, hne⟩
    have hin : e.1 ∈ (d.keys.filter fun k =>
        match d.get k with
        | some v => (JsNum.fin 0).lt v
        | none => false) := (hmem e.1).mpr ⟨e.2, he, hne⟩
    have hnn := List.ne_nil_of_mem hin
    obtain ⟨m, hm, hmax, hle⟩ := mathMax_ofInt _ hnn
    refine ⟨m, ?_, (hmem m).mp hm, ?_⟩
    · simp only [getHighestRating]
      rw [if_neg]
      · rw [hmax]
      · rw [List.length_map, List.length_eq_zero]
        exact hnn
    · intro k v hkv hv
      exact hle k ((hmem k).mpr ⟨v, hkv, hv⟩)

theorem Distribution.keys_increment (d : Distribution) (r : ℤ) (h : r ∈ d.keys) :
    (Distribution.increment d r).keys = d.keys := by
  induction d with
  | nil => cases h
  | cons e d ih =>
    obtain ⟨k, v⟩ := e
    by_cases hk : k = r
    · simp [Distribution.increment, Distribution.keys, hk]
    · have hr : r ∈ Distribution.keys d := by
        simp only [Distribution.keys, List.map_cons, List.mem_cons] at h
        rcases h with h | h
        · exact absurd h.symm hk
        · exact h
      have := ih hr
      simp only [Distribution.keys] at this
      simp [Distribution.increment, Distribution.keys, hk, this]

theorem Distribution.keys_fold (rs : List ℤ) (d : Distribution)
    (h : ∀ r ∈ rs, r ∈ d.keys) : (rs.foldl Distribution.increment d).keys = d.keys := by
  induction rs generalizing d with
  | nil => rfl
  | cons r rs ih =>
    rw [List.foldl_cons]
    have h1 := Distribution.keys_increment d r (h r (List.mem_cons_self _ _))
    rw [ih (Distribution.increment d r)
      (fun x hx => by rw [h1]; exact h x (List.mem_cons_of_mem _ hx)), h1]

theorem fetchStats_get (fs : List FeedbackRecord) (hlen : fs.length < 2 ^ 32) (k : ℤ)
    (h1 : 1 ≤ k) (h5 : k ≤ 5) :
    (fetchStats fs).ratingDistribution.get k =
      some (.fin ((fs.filter fun f => f.rating = k).length : ℕ)) := by
  have hinit : Distribution.get
      [(1, .fin 0), (2, .fin 0), (3, .fin 0), (4, .fin 0), (5, .fin 0)] k =
      some (.fin ((0 : ℕ) : ℚ)) := by
    have hk : k = 1 ∨ k = 2 ∨ k = 3 ∨ k = 4 ∨ k = 5 := by omega
    rcases hk with rfl | rfl | rfl | rfl | rfl <;> simp [Distribution.get]
  have hfold := distribution_fold k (fs.map fun f => f.rating) _ 0 hinit
    (by simp only [List.length_map]; omega)
  simp only [fetchStats]
  rw [hfold, ratings_filter_length]
  simp

theorem fetchStats_keys (fs : List FeedbackRecord)
    (hr : ∀ f ∈ fs, 1 ≤ f.rating ∧ f.rating ≤ 5) :
    (fetchStats fs).ratingDistribution.keys = [1, 2, 3, 4, 5] := by
  simp only [fetchStats]
  rw [Distribution.keys_fold]
  · rfl
  · intro r hmem
    obtain ⟨f, hf, rfl⟩ := List.mem_map.mp hmem
    have := hr f hf
    have hk : f.rating = 1 ∨ f.rating = 2 ∨ f.rating = 3 ∨ f.rating = 4 ∨ f.rating = 5 := by
      omega
    rcases hk with h | h | h | h | h <;> rw [h] <;> decide

theorem fetchStats_entry (fs : List FeedbackRecord)
    (hr : ∀ f ∈ fs, 1 ≤ f.rating ∧ f.rating ≤ 5) (hlen : fs.length < 2 ^ 32)
    (k : ℤ) (v : JsNum) (h : (k, v) ∈ (fetchStats fs).ratingDistribution) :
    (1 ≤ k ∧ k ≤ 5) ∧ v = .fin ((fs.filter fun f => f.rating = k).length : ℕ) := by
  have hkeys := fetchStats_keys fs hr
  have hk : k ∈ (fetchStats fs).ratingDistribution.keys :=
    List.mem_map.mpr ⟨(k, v), h, rfl⟩
  rw [hkeys] at hk
  have hk15 : 1 ≤ k ∧ k ≤ 5 := by
    simp only [List.mem_cons, List.mem_singleton, List.mem_nil_iff, or_false] at hk
    omega
  have hnd : (fetchStats fs).ratingDistribution.keys.Nodup := by rw [hkeys]; decide
  have hg := Distribution.get_of_mem _ k v hnd h
  rw [fetchStats_get fs hlen k hk15.1 hk15.2] at hg
  injection hg with hg
  exact ⟨hk15, hg.symm⟩

theorem fetchStats_wellFormed (fs : List FeedbackRecord)
    (hr : ∀ f ∈ fs, 1 ≤ f.rating ∧ f.rating ≤ 5) (hlen : fs.length < 2 ^ 32) :
    (fetchStats fs).ratingDistribution.WellFormed := by
  refine ⟨by rw [fetchStats_keys fs hr]; decide, ?_⟩
  rintro ⟨k, v⟩ he
  exact (JsNum.isCount_iff v).mpr ⟨_, (fetchStats_entry fs hr hlen k v he).2⟩

theorem fin_natCast_ne_zero (n : ℕ) : JsNum.fin (n : ℚ) ≠ .fin 0 ↔ n ≠ 0 := by
  constructor
  · intro h h0; apply h; rw [h0]; simp
  · intro h h0
    injection h0 with h0
    exact h (by exact_mod_cast h0)

/-- C12: for every well-formed rating distribution (distinct keys, each holding a
count), the dashboard's highest rating is "N/A" when all counts are zero, and otherwise
it is a key with a non-zero count that no other key with a non-zero count exceeds. For
the distribution computed from a non-empty list of fewer than 2 ^ 32 records with
ratings from 1 to 5, it is the largest rating in the list. -/
theorem C12_highest_rating (d : Distribution) (fs : List FeedbackRecord) :
    (d.WellFormed → (∀ e ∈ d, e.2 = .fin 0) → getHighestRating d = .str "N/A") ∧
    (d.WellFormed → (∃ e ∈ d, e.2 ≠ .fin 0) →
      ∃ m : ℤ, getHighestRating d = .num (.fin m) ∧ (∃ v, (m, v) ∈ d ∧ v ≠ .fin 0) ∧
        ∀ k v, (k, v) ∈ d → v ≠ .fin 0 → k ≤ m) ∧
    (fs ≠ [] → (∀ f ∈ fs, 1 ≤ f.rating ∧ f.rating ≤ 5) → fs.length < 2 ^ 32 →
      ∃ m : ℤ, getHighestRating (fetchStats fs).ratingDistribution = .num (.fin m) ∧
        (∃ f ∈ fs, f.rating = m) ∧ ∀ f ∈ fs, f.rating ≤ m) := by
  refine ⟨fun hd => (getHighestRating_spec d hd).1, fun hd => (getHighestRating_spec d hd).2,
    ?_⟩
  intro hne hr hlen
  have hwf := fetchStats_wellFormed fs hr hlen
  have hentry : ∀ f ∈ fs, ∃ v, (f.rating, v) ∈ (fetchStats fs).ratingDistribution ∧
      v ≠ .fin 0 := by
    intro f hf
    have hg := fetchStats_get fs hlen f.rating (hr f hf).1 (hr f hf).2
    refine ⟨_, Distribution.mem_of_get _ _ _ hg, ?_⟩
    rw [fin_natCast_ne_zero]
    have : f ∈ fs.filter fun g => g.rating = f.rating := by
      rw [List.mem_filter]; exact ⟨hf, by simp⟩
    intro h0
    rw [List.length_eq_zero] at h0
    rw [h0] at this
    cases this
  obtain ⟨f0, hf0⟩ := List.exists_mem_of_ne_nil fs hne
  obtain ⟨v0, hv0, hv0'⟩ := hentry f0 hf0
  obtain ⟨m, hm, ⟨v, hmv, hv⟩, hmax⟩ :=
    (getHighestRating_spec _ hwf).2 ⟨(f0.rating, v0), hv0, hv0'⟩
  refine ⟨m, hm, ?_, ?_⟩
  · obtain ⟨-, hval⟩ := fetchStats_entry fs hr hlen m v hmv
    rw [hval, fin_natCast_ne_zero] at hv
    obtain ⟨f, hf⟩ := List.exists_mem_of_ne_nil (fs.filter fun f => f.rating = m)
      (fun h => hv (by rw [h]; rfl))
    rw [List.mem_filter] at hf
    exact ⟨f, hf.1, by simpa using hf.2⟩
  · intro f hf
    obtain ⟨v', hv', hv''⟩ := hentry f hf
    exact hmax f.rating v' hv' hv''

/-- Witness for C12: the distribution of the ratings 5, 5, 3, the initial distribution,
and the list of ratings 5, 5, 3. -/
theorem C12_highest_rating_witness :
    (getHighestRating [(1, .fin 0), (2, .fin 0), (3, .fin 0), (4, .fin 0), (5, .fin 0)] =
      .str "N/A") ∧
    (∃ m : ℤ, getHighestRating (fetchStats [rated 1 5, rated 2 5, rated 3 3]).ratingDistribution =
        .num (.fin m) ∧
      (∃ f ∈ [rated 1 5, rated 2 5, rated 3 3], f.rating = m) ∧
      ∀ f ∈ [rated 1 5, rated 2 5, rated 3 3], f.rating ≤ m) :=
  ⟨(C12_highest_rating [(1, .fin 0), (2, .fin 0), (3, .fin 0), (4, .fin 0), (5, .fin 0)]
      []).1 (by decide) (by decide),
    (C12_highest_rating [] [rated 1 5, rated 2 5, rated 3 3]).2.2 (by decide) (by decide)
      (by decide)⟩

end SFA
